import Mathlib

/-!
A verification development for the control-flow evaluation engine in
`crates/typst/src/eval/flow.rs`: while/for loop evaluation, the flow-signal
protocol (break/continue/return), the static invariance/divergence lint, the
iteration cap, and for-loop iteration-source dispatch.

The evaluators are shallowly embedded: the mutable `Vm` becomes explicit
state passing, `SourceResult<T>` becomes `Except Diag T` paired with the
resulting state, and the external collaborators (general expression
evaluation of conditions/bodies/iterables, the `ops::join` operator,
`destructure`, grapheme segmentation) become function parameters, since they
live outside this excerpt.
-/

namespace Flow

/-! ## Syntax model

`is_invariant` and `can_diverge` in the source operate on the typed AST view
of syntax nodes (`ast::Expr` obtained by `cast()`), recursing through the
untyped children otherwise.  We model the node kinds those functions
distinguish: plain identifiers, math-mode identifiers, field accesses
(designated target sub-expression plus the field-name identifier), function
calls (designated callee and argument-list sub-expressions), break /
continue / return nodes, and a catch-all `other` kind carrying an arbitrary
list of children. -/

/-- A syntax node, as consumed by the static analyzer.  `other tag children`
covers every node kind that `is_invariant` does not special-case (literals,
operators, blocks, argument lists, ...), with `tag` distinguishing kinds. -/
inductive SyntaxNode where
  | ident (name : String)
  | mathIdent (name : String)
  | fieldAccess (receiver : SyntaxNode) (field : String)
  | funcCall (callee : SyntaxNode) (args : SyntaxNode)
  | breakNode
  | continueNode
  | returnNode (body : Option SyntaxNode)
  | other (tag : Nat) (children : List SyntaxNode)

/-- The untyped children of a node, mirroring `SyntaxNode::children()`: a
field access contains its target expression and the field-name identifier; a
function call contains its callee and its argument list; a return node
contains its optional operand. -/
def SyntaxNode.children : SyntaxNode → List SyntaxNode
  | .ident _ => []
  | .mathIdent _ => []
  | .fieldAccess receiver field => [receiver, .ident field]
  | .funcCall callee args => [callee, args]
  | .breakNode => []
  | .continueNode => []
  | .returnNode none => []
  | .returnNode (some body) => [body]
  | .other _ children => children

/-- Whether the node's kind is `SyntaxKind::Break` or `SyntaxKind::Return`
(the `matches!` test in `can_diverge`). -/
def SyntaxNode.isBreakOrReturn : SyntaxNode → Bool
  | .breakNode => true
  | .returnNode _ => true
  | _ => false

mutual

/-- Whether the expression always evaluates to the same value
(`is_invariant` in the source): false for plain and math-mode identifiers;
for a field access, invariance of the target only; for a function call,
invariance of both the callee and the argument list; for every other node,
invariance of all children. -/
def is_invariant : SyntaxNode → Bool
  | .ident _ => false
  | .mathIdent _ => false
  | .fieldAccess receiver _ => is_invariant receiver
  | .funcCall callee args => is_invariant callee && is_invariant args
  | .breakNode => true
  | .continueNode => true
  | .returnNode none => true
  | .returnNode (some body) => is_invariant body
  | .other _ children => allInvariant children

/-- `children.all(is_invariant)`, spelled out for structural recursion. -/
def allInvariant : List SyntaxNode → Bool
  | [] => true
  | c :: cs => is_invariant c && allInvariant cs

end

mutual

/-- Whether the expression contains a break or return (`can_diverge` in the
source): the node's own kind is `Break` or `Return`, or some child can
diverge.  Spelled per node kind for structural recursion; the field-name
identifier child of a field access is itself an identifier and so can never
diverge, which `can_diverge_eq_children_formula` below accounts for when
relating this definition to the source's uniform
`isBreakOrReturn || children.any(can_diverge)` formula. -/
def can_diverge : SyntaxNode → Bool
  | .breakNode => true
  | .returnNode _ => true
  | .ident _ => false
  | .mathIdent _ => false
  | .continueNode => false
  | .fieldAccess receiver _ => can_diverge receiver
  | .funcCall callee args => can_diverge callee || can_diverge args
  | .other _ children => anyDiverge children

/-- `children.any(can_diverge)`, spelled out for structural recursion. -/
def anyDiverge : List SyntaxNode → Bool
  | [] => false
  | c :: cs => can_diverge c || anyDiverge cs

end

theorem allInvariant_eq_all (cs : List SyntaxNode) :
    allInvariant cs = cs.all is_invariant := by
  induction cs with
  | nil => rfl
  | cons c cs ih => simp [allInvariant, List.all_cons, ih]

theorem anyDiverge_eq_any (cs : List SyntaxNode) :
    anyDiverge cs = cs.any can_diverge := by
  induction cs with
  | nil => rfl
  | cons c cs ih => simp [anyDiverge, List.any_cons, ih]

/-- The per-case definition of `can_diverge` agrees with the source's
uniform formula `matches!(kind, Break | Return) || children().any(can_diverge)`
on every node. -/
theorem can_diverge_eq_children_formula (e : SyntaxNode) :
    can_diverge e = (e.isBreakOrReturn || e.children.any can_diverge) := by
  cases e with
  | ident n => rfl
  | mathIdent n => rfl
  | fieldAccess receiver field =>
      simp [can_diverge, SyntaxNode.isBreakOrReturn, SyntaxNode.children,
        List.any_cons]
  | funcCall callee args =>
      simp [can_diverge, SyntaxNode.isBreakOrReturn, SyntaxNode.children,
        List.any_cons]
  | breakNode => rfl
  | continueNode => rfl
  | returnNode body =>
      cases body <;>
        simp [can_diverge, SyntaxNode.isBreakOrReturn, SyntaxNode.children]
  | other tag children =>
      simp [can_diverge, SyntaxNode.isBreakOrReturn, SyntaxNode.children,
        anyDiverge_eq_any]

/-! ## Runtime model

Values, diagnostics, flow events and the evaluation context.  The value
type, its `join` operator, destructuring and grapheme segmentation are
external collaborators of this core; we model values concretely with the
variants the for-loop dispatch distinguishes (string, dictionary, array and
a few scalar kinds), and keep `join`, `destructure` and grapheme
segmentation parametric. -/

/-- A runtime value, with the variants `ForLoop::eval` dispatches on
(`Value::Str`, `Value::Dict`, `Value::Array`) plus representative other
variants.  Dictionaries are string-keyed association lists. -/
inductive Value where
  | none
  | bool (b : Bool)
  | int (i : Int)
  | str (s : String)
  | array (elems : List Value)
  | dict (pairs : List (String × Value))

/-- Modelled from the spec: the runtime type name of a value.  The value
type is an external collaborator; only its name reaches this core, where it
is interpolated into the "cannot loop over {}" and
"cannot destructure values of {}" diagnostics. -/
def Value.ty : Value → String
  | .none => "none"
  | .bool _ => "boolean"
  | .int _ => "integer"
  | .str _ => "string"
  | .array _ => "array"
  | .dict _ => "dictionary"

/-- A source diagnostic: a span (modelled as a number) and a message, as
produced by `bail!` / `error!`. -/
structure Diag where
  span : Nat
  message : String
deriving DecidableEq

/-- The result of a fallible evaluation step (`SourceResult<T>`). -/
abbrev Res (α : Type) := Except Diag α

/-- A control flow event that occurred during evaluation (`FlowEvent`). -/
inductive FlowEvent where
  | Break (span : Nat)
  | Continue (span : Nat)
  | Return (span : Nat) (value : Option Value)

/-- The evaluation context threaded through the evaluators (`Vm`), reduced
to the state this core reads or writes: the flow slot and the scope stack
(a stack of binding frames; `enter` pushes an empty frame, `exit` pops).
`store` abstracts the remainder of the interpreter state, which only the
external collaborators (condition/body/iterable evaluation, destructuring)
touch; the evaluators defined here never modify it, so theorems can use it
to count or script external evaluations. -/
structure Vm where
  flow : Option FlowEvent
  scopes : List (List (String × Value))
  store : Nat

/-- `vm.scopes.enter()`: push a fresh empty binding frame. -/
def Vm.enterScope (vm : Vm) : Vm :=
  { vm with scopes := [] :: vm.scopes }

/-- `vm.scopes.exit()`: pop the innermost binding frame. -/
def Vm.exitScope (vm : Vm) : Vm :=
  { vm with scopes := vm.scopes.tail }

/-- An external evaluation step: `expr.eval(vm)` for some expression owned
by a collaborator, returning a `SourceResult<Value>` and the mutated
context. -/
abbrev EvalFn := Vm → Res Value × Vm

/-- Modelled from the spec: the boolean cast applied to a loop condition
(`.cast::<bool>().at(span)` — casting lives outside this excerpt); a
condition must be a strict boolean or evaluation fails with a type
diagnostic at the condition's span. -/
def castBool (v : Value) (span : Nat) : Res Bool :=
  match v with
  | .bool b => .ok b
  | v => .error ⟨span, "expected boolean, found " ++ v.ty⟩

/-! ## Signal emitters

`LoopBreak::eval`, `LoopContinue::eval` and `FuncReturn::eval`: each
produces `Value::None` as its own result and sets the flow slot only when it
is currently empty. -/

/-- `LoopBreak::eval`: set a pending `Break` if no signal is pending, and
produce `Value::None`. -/
def loopBreakEval (span : Nat) (vm : Vm) : Res Value × Vm :=
  (.ok Value.none,
    if vm.flow.isNone then { vm with flow := some (.Break span) } else vm)

/-- `LoopContinue::eval`: set a pending `Continue` if no signal is pending,
and produce `Value::None`. -/
def loopContinueEval (span : Nat) (vm : Vm) : Res Value × Vm :=
  (.ok Value.none,
    if vm.flow.isNone then { vm with flow := some (.Continue span) } else vm)

/-- A return expression: its span and, when present, the external evaluation
of its operand expression (`self.body()`). -/
structure ReturnExpr where
  span : Nat
  body : Option EvalFn

/-- `FuncReturn::eval`: evaluate the optional operand first
(`self.body().map(|body| body.eval(vm)).transpose()?`), then set a pending
`Return` carrying the operand's value if no signal is pending, and produce
`Value::None`. -/
def funcReturnEval (r : ReturnExpr) (vm : Vm) : Res Value × Vm :=
  match r.body with
  | Option.none =>
      (.ok Value.none,
        if vm.flow.isNone then { vm with flow := some (.Return r.span Option.none) }
        else vm)
  | Option.some f =>
      match f vm with
      | (.error d, vm1) => (.error d, vm1)
      | (.ok v, vm1) =>
          (.ok Value.none,
            if vm1.flow.isNone then
              { vm1 with flow := some (.Return r.span (some v)) }
            else vm1)

/-! ## While-loop evaluator

`WhileLoop::eval`: save and clear the pending flow, run the condition /
lint / cap / body / join / flow-inspection loop, restore the saved flow on
the non-error exit.  The condition and body are external expressions; the
loop evaluator consumes their syntax (for the lint and the spans) and their
evaluation functions. -/

/-- The maximum number of loop iterations (`MAX_ITERATIONS`). -/
def MAX_ITERATIONS : Nat := 10000

/-- The join operator merging the output accumulator with a body value
(`ops::join`, external; fails with a message surfaced at the body's span). -/
abbrev JoinFn := Value → Value → Except String Value

/-- A while loop as the evaluator consumes it: the syntax of its condition
and body (for the invariance lint), their spans and the loop's span, and the
external evaluation functions for the condition and body expressions. -/
structure WhileExpr where
  condNode : SyntaxNode
  bodyNode : SyntaxNode
  condSpan : Nat
  bodySpan : Nat
  loopSpan : Nat
  condEval : EvalFn
  bodyEval : EvalFn

/-- One round of `WhileLoop::eval`'s `while` loop at iteration index `i`
with accumulator `output`: evaluate and cast the condition; if false stop
with the accumulator; otherwise run the invariant lint (first iteration
only), then the iteration cap, then evaluate the body, join its value, and
inspect the flow slot (Break: clear and stop; Continue: clear and iterate;
Return: stop leaving the slot set; none: iterate).  The saved-flow
restoration lives in `whileEval`. -/
def whileAux (join : JoinFn) (w : WhileExpr) (i : Nat) (output : Value)
    (vm : Vm) : Res Value × Vm :=
  match w.condEval vm with
  | (.error d, vm1) => (.error d, vm1)
  | (.ok cond, vm1) =>
    match castBool cond w.condSpan with
    | .error d => (.error d, vm1)
    | .ok false => (.ok output, vm1)
    | .ok true =>
      if i == 0 && is_invariant w.condNode && !can_diverge w.bodyNode then
        (.error ⟨w.condSpan, "condition is always true"⟩, vm1)
      else if _h : MAX_ITERATIONS ≤ i then
        (.error ⟨w.loopSpan, "loop seems to be infinite"⟩, vm1)
      else
        match w.bodyEval vm1 with
        | (.error d, vm2) => (.error d, vm2)
        | (.ok value, vm2) =>
          match join output value with
          | .error m => (.error ⟨w.bodySpan, m⟩, vm2)
          | .ok output2 =>
            match vm2.flow with
            | some (.Break _) => (.ok output2, { vm2 with flow := none })
            | some (.Continue _) =>
                whileAux join w (i + 1) output2 { vm2 with flow := none }
            | some (.Return _ _) => (.ok output2, vm2)
            | none => whileAux join w (i + 1) output2 vm2
termination_by MAX_ITERATIONS + 1 - i
decreasing_by
  all_goals omega

/-- The saved-flow restoration at the end of both loop evaluators
(`if flow.is_some() { vm.flow = flow; }`): it runs only when the loop body
reached the end of the function, so an error result is passed through
untouched, while a success restores a non-empty saved flow over whatever the
loop left in the slot. -/
def restoreFlow (saved : Option FlowEvent) : Res Value × Vm → Res Value × Vm
  | (.ok output, vm) =>
      (.ok output, if saved.isSome then { vm with flow := saved } else vm)
  | (.error d, vm) => (.error d, vm)

/-- `WhileLoop::eval`: take the pending flow (`vm.flow.take()`), run the
loop from index 0 with accumulator `Value::None`, and on the non-error exit
restore the saved flow when it was non-empty; an error (`bail!` or `?`)
returns before that restoration. -/
def whileEval (join : JoinFn) (w : WhileExpr) (vm : Vm) : Res Value × Vm :=
  restoreFlow vm.flow (whileAux join w 0 Value.none { vm with flow := none })

/-! ## For-loop evaluator

`ForLoop::eval`: evaluate the iterable once, dispatch on (pattern shape,
runtime value type) to an iteration source, enter one binding scope, run the
destructure / body / join / flow-inspection loop over the produced items,
exit the scope, and restore the saved flow on the non-error exit. -/

/-- A binding pattern (`ast::Pattern`): the dispatch in `ForLoop::eval` only
distinguishes `Pattern::Normal(_)` from every other shape. -/
inductive Pattern where
  | normal (name : String)
  | placeholder
  | destructuring (tag : Nat)

/-- Destructuring (`destructure`, external): bind a produced item against
the pattern in the current scope, failing with a shape diagnostic when the
item's shape mismatches the pattern. -/
abbrev DestructureFn := Pattern → Value → Vm → Res Unit × Vm

/-- A for loop as the evaluator consumes it: the pattern and its span, the
iterable's span, the body's span, the external evaluation function of the
iterable expression, the external destructuring function, the external
evaluation function of the body, and the external grapheme segmentation of
strings (`unicode-segmentation`). -/
structure ForExpr where
  pattern : Pattern
  patternSpan : Nat
  iterSpan : Nat
  bodySpan : Nat
  iterEval : EvalFn
  dstr : DestructureFn
  bodyEval : EvalFn
  graphemes : String → List String

/-- The body of the `iter!` macro's `for value in $iter` loop: for each
item, destructure it into the pattern, evaluate the body, join its value
into the accumulator, and inspect the flow slot (Break: clear and stop;
Continue: clear and move to the next item; Return: stop leaving the slot
set; none: move to the next item). -/
def forBody (join : JoinFn) (f : ForExpr) (items : List Value)
    (output : Value) (vm : Vm) : Res Value × Vm :=
  match items with
  | [] => (.ok output, vm)
  | item :: rest =>
    match f.dstr f.pattern item vm with
    | (.error d, vm1) => (.error d, vm1)
    | (.ok _, vm1) =>
      match f.bodyEval vm1 with
      | (.error d, vm2) => (.error d, vm2)
      | (.ok value, vm2) =>
        match join output value with
        | .error m => (.error ⟨f.bodySpan, m⟩, vm2)
        | .ok output2 =>
          match vm2.flow with
          | some (.Break _) => (.ok output2, { vm2 with flow := none })
          | some (.Continue _) =>
              forBody join f rest output2 { vm2 with flow := none }
          | some (.Return _ _) => (.ok output2, vm2)
          | none => forBody join f rest output2 vm2

/-- The `iter!` macro: enter one binding scope, run the item loop with
accumulator `Value::None`, and exit the scope — the exit runs only when the
loop finishes without an error, because a `?` inside the loop returns from
the whole evaluator before reaching `vm.scopes.exit()`. -/
def iterRun (join : JoinFn) (f : ForExpr) (items : List Value) (vm : Vm) :
    Res Value × Vm :=
  match forBody join f items Value.none vm.enterScope with
  | (.ok output, vm1) => (.ok output, vm1.exitScope)
  | (.error d, vm1) => (.error d, vm1)

/-- The key/value pairs of a dictionary as iteration items.  Modelled from
the spec: the dictionary type is external; iterating it yields each
key/value pair (bound as a two-element pair item, so a two-element
destructuring pattern binds key and value and a single name binds the pair
as-is). -/
def dictPairs (pairs : List (String × Value)) : List Value :=
  pairs.map fun kv => Value.array [Value.str kv.1, kv.2]

/-- The iteration-source dispatch of `ForLoop::eval` (the `match (&pattern,
iter.clone())` statement): `(Normal, Str)` iterates grapheme clusters,
`(_, Dict)` iterates key/value pairs, `(_, Array)` iterates elements,
`(Normal, _)` fails "cannot loop over {type}" at the iterable's span, and
any other combination fails "cannot destructure values of {type}" at the
pattern's span. -/
def forDispatch (join : JoinFn) (f : ForExpr) (iter : Value) (vm1 : Vm) :
    Res Value × Vm :=
  match f.pattern, iter with
  | .normal _, .str s => iterRun join f ((f.graphemes s).map Value.str) vm1
  | _, .dict pairs => iterRun join f (dictPairs pairs) vm1
  | _, .array elems => iterRun join f elems vm1
  | .normal _, v => (.error ⟨f.iterSpan, "cannot loop over " ++ v.ty⟩, vm1)
  | _, v =>
      (.error ⟨f.patternSpan, "cannot destructure values of " ++ v.ty⟩, vm1)

/-- `ForLoop::eval`: take the pending flow, evaluate the iterable once,
dispatch to the iteration source, and restore the saved flow on the
non-error exit; an error (`bail!` or `?`) returns before that
restoration. -/
def forEval (join : JoinFn) (f : ForExpr) (vm : Vm) : Res Value × Vm :=
  match f.iterEval { vm with flow := none } with
  | (.error d, vm1) => (.error d, vm1)
  | (.ok iter, vm1) => restoreFlow vm.flow (forDispatch join f iter vm1)

/-! ## Auxiliary notions used by the statements

A concrete instance of the external join operator, the left fold of a join
over a list of per-iteration values, scripted value sequences, the
descendant relation on syntax nodes, and concrete loops exercising the
evaluators. -/

/-- Modelled from the spec: a concrete instance of the external join
operator (`ops::join` lives outside this excerpt), used to run the
evaluators on concrete inputs.  Joining the identity `none` with any value
yields that value, strings and arrays concatenate, and any other
combination fails. -/
def joinVal : JoinFn
  | .none, v => .ok v
  | v, .none => .ok v
  | .str a, .str b => .ok (.str (a ++ b))
  | .array a, .array b => .ok (.array (a ++ b))
  | a, _ => .error ("cannot join " ++ a.ty)

/-- The left fold of a join operator over per-iteration body values in
iteration order, starting from an accumulator. -/
def joinFold (join : JoinFn) : Value → List Value → Except String Value
  | output, [] => .ok output
  | output, v :: vs =>
    match join output v with
    | .error m => .error m
    | .ok output2 => joinFold join output2 vs

/-- The values a scripted body produces on its calls number `s`, `s + 1`,
..., `s + n - 1` (the `store` field counts calls). -/
def valueScript (bvals : Nat → Value) (s n : Nat) : List Value :=
  (List.range n).map fun k => bvals (s + k)

/-- `Descendant m n`: the node `m` is `n` itself or lies somewhere below it
in the syntax tree. -/
inductive Descendant : SyntaxNode → SyntaxNode → Prop where
  | refl (n : SyntaxNode) : Descendant n n
  | step {m c n : SyntaxNode} (hc : c ∈ n.children) (hd : Descendant m c) :
      Descendant m n

/-- A `while true { break }` loop: the condition is an invariant literal
evaluating to `true`, and the body is a block containing a break, whose
evaluation emits the break signal and yields `Value::None`. -/
def whileTrueBreak : WhileExpr :=
  { condNode := .other 0 []
    bodyNode := .other 1 [.breakNode]
    condSpan := 1
    bodySpan := 2
    loopSpan := 3
    condEval := fun vm => (.ok (.bool true), vm)
    bodyEval := loopBreakEval 4 }

/-- A loop whose condition is a mutable binding that happens to stay true
forever (so the invariant lint cannot fire) and whose body counts its own
evaluations in `store`. -/
def capWhile : WhileExpr :=
  { condNode := .ident "x"
    bodyNode := .other 0 []
    condSpan := 1
    bodySpan := 2
    loopSpan := 3
    condEval := fun vm => (.ok (.bool true), vm)
    bodyEval := fun vm => (.ok Value.none, { vm with store := vm.store + 1 }) }

/-- A `while x < n { .. }` style loop: the condition reads the mutable
counter in `store` and turns false once it reaches `n`; the body bumps the
counter and produces the scripted value for the current iteration. -/
def countdownWhile (n : Nat) (bvals : Nat → Value) : WhileExpr :=
  { condNode := .ident "x"
    bodyNode := .other 0 []
    condSpan := 1
    bodySpan := 2
    loopSpan := 3
    condEval := fun vm => (.ok (.bool (decide (vm.store < n))), vm)
    bodyEval := fun vm =>
      (.ok (bvals vm.store), { vm with store := vm.store + 1 }) }

/-! ## Step lemmas for the while loop -/

theorem whileAux_cond_error {join : JoinFn} {w : WhileExpr} {i : Nat}
    {output : Value} {vm vm1 : Vm} {d : Diag}
    (hc : w.condEval vm = (.error d, vm1)) :
    whileAux join w i output vm = (.error d, vm1) := by
  rw [whileAux]; simp [hc]

theorem whileAux_cond_cast_error {join : JoinFn} {w : WhileExpr} {i : Nat}
    {output : Value} {vm vm1 : Vm} {c : Value} {d : Diag}
    (hc : w.condEval vm = (.ok c, vm1))
    (hb : castBool c w.condSpan = .error d) :
    whileAux join w i output vm = (.error d, vm1) := by
  rw [whileAux]; simp [hc, hb]

theorem whileAux_cond_false {join : JoinFn} {w : WhileExpr} {i : Nat}
    {output : Value} {vm vm1 : Vm} {c : Value}
    (hc : w.condEval vm = (.ok c, vm1))
    (hb : castBool c w.condSpan = .ok false) :
    whileAux join w i output vm = (.ok output, vm1) := by
  rw [whileAux]; simp [hc, hb]

theorem whileAux_lint {join : JoinFn} {w : WhileExpr} {output : Value}
    {vm vm1 : Vm} {c : Value}
    (hc : w.condEval vm = (.ok c, vm1))
    (hb : castBool c w.condSpan = .ok true)
    (hinv : is_invariant w.condNode = true)
    (hdiv : can_diverge w.bodyNode = false) :
    whileAux join w 0 output vm =
      (.error ⟨w.condSpan, "condition is always true"⟩, vm1) := by
  rw [whileAux]; simp [hc, hb, hinv, hdiv]

theorem whileAux_cap {join : JoinFn} {w : WhileExpr} {i : Nat}
    {output : Value} {vm vm1 : Vm} {c : Value}
    (hc : w.condEval vm = (.ok c, vm1))
    (hb : castBool c w.condSpan = .ok true)
    (hi : MAX_ITERATIONS ≤ i) :
    whileAux join w i output vm =
      (.error ⟨w.loopSpan, "loop seems to be infinite"⟩, vm1) := by
  have h0 : (i == 0) = false := by
    simp only [beq_eq_false_iff_ne]
    have : 0 < MAX_ITERATIONS := by decide
    omega
  rw [whileAux]
  simp [hc, hb, h0, hi]

theorem whileAux_body_step {join : JoinFn} {w : WhileExpr} {i : Nat}
    {output : Value} {vm vm1 vm2 : Vm} {c value output2 : Value}
    (hc : w.condEval vm = (.ok c, vm1))
    (hb : castBool c w.condSpan = .ok true)
    (hguard : (i == 0 && is_invariant w.condNode && !can_diverge w.bodyNode)
        = false)
    (hcap : i < MAX_ITERATIONS)
    (hbody : w.bodyEval vm1 = (.ok value, vm2))
    (hjoin : join output value = .ok output2) :
    whileAux join w i output vm =
      match vm2.flow with
      | some (.Break _) => (.ok output2, { vm2 with flow := none })
      | some (.Continue _) =>
          whileAux join w (i + 1) output2 { vm2 with flow := none }
      | some (.Return _ _) => (.ok output2, vm2)
      | none => whileAux join w (i + 1) output2 vm2 := by
  rw [whileAux]
  simp [hc, hb, hguard, Nat.not_le.mpr hcap, hbody, hjoin]

theorem whileAux_body_error {join : JoinFn} {w : WhileExpr} {i : Nat}
    {output : Value} {vm vm1 vm2 : Vm} {c : Value} {d : Diag}
    (hc : w.condEval vm = (.ok c, vm1))
    (hb : castBool c w.condSpan = .ok true)
    (hguard : (i == 0 && is_invariant w.condNode && !can_diverge w.bodyNode)
        = false)
    (hcap : i < MAX_ITERATIONS)
    (hbody : w.bodyEval vm1 = (.error d, vm2)) :
    whileAux join w i output vm = (.error d, vm2) := by
  rw [whileAux]
  simp [hc, hb, hguard, Nat.not_le.mpr hcap, hbody]

theorem whileAux_join_error {join : JoinFn} {w : WhileExpr} {i : Nat}
    {output : Value} {vm vm1 vm2 : Vm} {c value : Value} {m : String}
    (hc : w.condEval vm = (.ok c, vm1))
    (hb : castBool c w.condSpan = .ok true)
    (hguard : (i == 0 && is_invariant w.condNode && !can_diverge w.bodyNode)
        = false)
    (hcap : i < MAX_ITERATIONS)
    (hbody : w.bodyEval vm1 = (.ok value, vm2))
    (hjoin : join output value = .error m) :
    whileAux join w i output vm = (.error ⟨w.bodySpan, m⟩, vm2) := by
  rw [whileAux]
  simp [hc, hb, hguard, Nat.not_le.mpr hcap, hbody, hjoin]

theorem whileAux_step_break {join : JoinFn} {w : WhileExpr} {i : Nat}
    {output : Value} {vm vm1 vm2 : Vm} {c value output2 : Value} {s : Nat}
    (hc : w.condEval vm = (.ok c, vm1))
    (hb : castBool c w.condSpan = .ok true)
    (hguard : (i == 0 && is_invariant w.condNode && !can_diverge w.bodyNode)
        = false)
    (hcap : i < MAX_ITERATIONS)
    (hbody : w.bodyEval vm1 = (.ok value, vm2))
    (hjoin : join output value = .ok output2)
    (hf : vm2.flow = some (.Break s)) :
    whileAux join w i output vm = (.ok output2, { vm2 with flow := none }) := by
  rw [whileAux_body_step hc hb hguard hcap hbody hjoin, hf]

theorem whileAux_step_continue {join : JoinFn} {w : WhileExpr} {i : Nat}
    {output : Value} {vm vm1 vm2 : Vm} {c value output2 : Value} {s : Nat}
    (hc : w.condEval vm = (.ok c, vm1))
    (hb : castBool c w.condSpan = .ok true)
    (hguard : (i == 0 && is_invariant w.condNode && !can_diverge w.bodyNode)
        = false)
    (hcap : i < MAX_ITERATIONS)
    (hbody : w.bodyEval vm1 = (.ok value, vm2))
    (hjoin : join output value = .ok output2)
    (hf : vm2.flow = some (.Continue s)) :
    whileAux join w i output vm
      = whileAux join w (i + 1) output2 { vm2 with flow := none } := by
  rw [whileAux_body_step hc hb hguard hcap hbody hjoin, hf]

theorem whileAux_step_return {join : JoinFn} {w : WhileExpr} {i : Nat}
    {output : Value} {vm vm1 vm2 : Vm} {c value output2 : Value} {s : Nat}
    {rv : Option Value}
    (hc : w.condEval vm = (.ok c, vm1))
    (hb : castBool c w.condSpan = .ok true)
    (hguard : (i == 0 && is_invariant w.condNode && !can_diverge w.bodyNode)
        = false)
    (hcap : i < MAX_ITERATIONS)
    (hbody : w.bodyEval vm1 = (.ok value, vm2))
    (hjoin : join output value = .ok output2)
    (hf : vm2.flow = some (.Return s rv)) :
    whileAux join w i output vm = (.ok output2, vm2) := by
  rw [whileAux_body_step hc hb hguard hcap hbody hjoin, hf]

theorem whileAux_step_next {join : JoinFn} {w : WhileExpr} {i : Nat}
    {output : Value} {vm vm1 vm2 : Vm} {c value output2 : Value}
    (hc : w.condEval vm = (.ok c, vm1))
    (hb : castBool c w.condSpan = .ok true)
    (hguard : (i == 0 && is_invariant w.condNode && !can_diverge w.bodyNode)
        = false)
    (hcap : i < MAX_ITERATIONS)
    (hbody : w.bodyEval vm1 = (.ok value, vm2))
    (hjoin : join output value = .ok output2)
    (hf : vm2.flow = none) :
    whileAux join w i output vm = whileAux join w (i + 1) output2 vm2 := by
  rw [whileAux_body_step hc hb hguard hcap hbody hjoin, hf]

theorem restoreFlow_store (saved : Option FlowEvent) (r : Res Value × Vm) :
    ((restoreFlow saved r).2).store = (r.2).store := by
  rcases r with ⟨r, vmx⟩
  cases r with
  | error d => rfl
  | ok v => cases saved <;> rfl

theorem restoreFlow_ok_some {saved : Option FlowEvent} {e : FlowEvent}
    (hs : saved = some e) (v : Value) (vmx : Vm) :
    restoreFlow saved (.ok v, vmx) = (.ok v, { vmx with flow := some e }) := by
  subst hs; simp [restoreFlow]

theorem restoreFlow_error (saved : Option FlowEvent) (d : Diag) (vmx : Vm) :
    restoreFlow saved (.error d, vmx) = (.error d, vmx) := rfl

/-! ## Store instrumentation for the while loop

With a condition that leaves the call counter `store` alone and a body that
bumps it once per evaluation, the counter after the loop measures the
number of body evaluations. -/

theorem whileAux_store_mono {join : JoinFn} {w : WhileExpr}
    (Hc : ∀ vm : Vm, ((w.condEval vm).2).store = vm.store)
    (Hb : ∀ vm : Vm, ((w.bodyEval vm).2).store = vm.store + 1) :
    ∀ k i output vm, MAX_ITERATIONS - i ≤ k →
      vm.store ≤ ((whileAux join w i output vm).2).store := by
  intro k
  induction k with
  | zero =>
    intro i output vm hk
    rcases hcv : w.condEval vm with ⟨r, vm1⟩
    have hs1 : vm1.store = vm.store := by
      have := Hc vm; rw [hcv] at this; exact this
    cases r with
    | error d => rw [whileAux_cond_error hcv]; dsimp only; omega
    | ok c =>
      cases hcb : castBool c w.condSpan with
      | error d => rw [whileAux_cond_cast_error hcv hcb]; dsimp only; omega
      | ok b =>
        cases b with
        | false => rw [whileAux_cond_false hcv hcb]; dsimp only; omega
        | true => rw [whileAux_cap hcv hcb (by omega)]; dsimp only; omega
  | succ k ih =>
    intro i output vm hk
    rcases hcv : w.condEval vm with ⟨r, vm1⟩
    have hs1 : vm1.store = vm.store := by
      have := Hc vm; rw [hcv] at this; exact this
    cases r with
    | error d => rw [whileAux_cond_error hcv]; dsimp only; omega
    | ok c =>
      cases hcb : castBool c w.condSpan with
      | error d => rw [whileAux_cond_cast_error hcv hcb]; dsimp only; omega
      | ok b =>
        cases b with
        | false => rw [whileAux_cond_false hcv hcb]; dsimp only; omega
        | true =>
          by_cases hg :
              (i == 0 && is_invariant w.condNode && !can_diverge w.bodyNode)
                = true
          · have hi0 : i = 0 := by
              have := hg
              simp only [Bool.and_eq_true, beq_iff_eq] at this
              exact this.1.1
            subst hi0
            simp only [Bool.and_eq_true, beq_iff_eq, Bool.not_eq_true'] at hg
            rw [whileAux_lint hcv hcb hg.1.2 hg.2]
            dsimp only
            omega
          · replace hg := Bool.eq_false_iff.mpr hg
            by_cases hcap : MAX_ITERATIONS ≤ i
            · rw [whileAux_cap hcv hcb hcap]; dsimp only; omega
            · replace hcap := Nat.lt_of_not_le hcap
              rcases hbv : w.bodyEval vm1 with ⟨rb, vm2⟩
              have hs2 : vm2.store = vm1.store + 1 := by
                have := Hb vm1; rw [hbv] at this; exact this
              cases rb with
              | error d => rw [whileAux_body_error hcv hcb hg hcap hbv]; dsimp only; omega
              | ok value =>
                cases hj : join output value with
                | error m =>
                    rw [whileAux_join_error hcv hcb hg hcap hbv hj]; dsimp only; omega
                | ok output2 =>
                  rw [whileAux_body_step hcv hcb hg hcap hbv hj]
                  have hrec : MAX_ITERATIONS - (i + 1) ≤ k := by omega
                  cases hf : vm2.flow with
                  | none =>
                    have := ih (i + 1) output2 vm2 hrec
                    dsimp only at this ⊢
                    omega
                  | some e =>
                    cases e with
                    | Break s => dsimp only; omega
                    | Continue s =>
                      have := ih (i + 1) output2 { vm2 with flow := none } hrec
                      dsimp only at this ⊢
                      omega
                    | Return s rv => dsimp only; omega

theorem whileAux_store_le {join : JoinFn} {w : WhileExpr}
    (Hc : ∀ vm : Vm, ((w.condEval vm).2).store = vm.store)
    (Hb : ∀ vm : Vm, ((w.bodyEval vm).2).store = vm.store + 1) :
    ∀ k i output vm, MAX_ITERATIONS - i ≤ k →
      ((whileAux join w i output vm).2).store
        ≤ vm.store + (MAX_ITERATIONS - i) := by
  intro k
  induction k with
  | zero =>
    intro i output vm hk
    rcases hcv : w.condEval vm with ⟨r, vm1⟩
    have hs1 : vm1.store = vm.store := by
      have := Hc vm; rw [hcv] at this; exact this
    cases r with
    | error d => rw [whileAux_cond_error hcv]; dsimp only; omega
    | ok c =>
      cases hcb : castBool c w.condSpan with
      | error d => rw [whileAux_cond_cast_error hcv hcb]; dsimp only; omega
      | ok b =>
        cases b with
        | false => rw [whileAux_cond_false hcv hcb]; dsimp only; omega
        | true => rw [whileAux_cap hcv hcb (by omega)]; dsimp only; omega
  | succ k ih =>
    intro i output vm hk
    rcases hcv : w.condEval vm with ⟨r, vm1⟩
    have hs1 : vm1.store = vm.store := by
      have := Hc vm; rw [hcv] at this; exact this
    cases r with
    | error d => rw [whileAux_cond_error hcv]; dsimp only; omega
    | ok c =>
      cases hcb : castBool c w.condSpan with
      | error d => rw [whileAux_cond_cast_error hcv hcb]; dsimp only; omega
      | ok b =>
        cases b with
        | false => rw [whileAux_cond_false hcv hcb]; dsimp only; omega
        | true =>
          by_cases hg :
              (i == 0 && is_invariant w.condNode && !can_diverge w.bodyNode)
                = true
          · have hi0 : i = 0 := by
              have := hg
              simp only [Bool.and_eq_true, beq_iff_eq] at this
              exact this.1.1
            subst hi0
            simp only [Bool.and_eq_true, beq_iff_eq, Bool.not_eq_true'] at hg
            rw [whileAux_lint hcv hcb hg.1.2 hg.2]
            dsimp only
            omega
          · replace hg := Bool.eq_false_iff.mpr hg
            by_cases hcap : MAX_ITERATIONS ≤ i
            · rw [whileAux_cap hcv hcb hcap]; dsimp only; omega
            · replace hcap := Nat.lt_of_not_le hcap
              rcases hbv : w.bodyEval vm1 with ⟨rb, vm2⟩
              have hs2 : vm2.store = vm1.store + 1 := by
                have := Hb vm1; rw [hbv] at this; exact this
              cases rb with
              | error d => rw [whileAux_body_error hcv hcb hg hcap hbv]; dsimp only; omega
              | ok value =>
                cases hj : join output value with
                | error m =>
                    rw [whileAux_join_error hcv hcb hg hcap hbv hj]; dsimp only; omega
                | ok output2 =>
                  rw [whileAux_body_step hcv hcb hg hcap hbv hj]
                  have hrec : MAX_ITERATIONS - (i + 1) ≤ k := by omega
                  cases hf : vm2.flow with
                  | none =>
                    have := ih (i + 1) output2 vm2 hrec
                    dsimp only at this ⊢
                    omega
                  | some e =>
                    cases e with
                    | Break s => dsimp only; omega
                    | Continue s =>
                      have := ih (i + 1) output2 { vm2 with flow := none } hrec
                      dsimp only at this ⊢
                      omega
                    | Return s rv => dsimp only; omega

/-! ## Concrete while-loop executions -/

theorem joinVal_none_right (v : Value) : joinVal v Value.none = .ok v := by
  cases v <;> rfl

theorem valueScript_succ (bvals : Nat → Value) (s n : Nat) :
    valueScript bvals s (n + 1) = bvals s :: valueScript bvals (s + 1) n := by
  unfold valueScript
  rw [List.range_succ_eq_map, List.map_cons, List.map_map]
  congr 1
  apply List.map_congr_left
  intro a ha
  have h : s + Nat.succ a = s + 1 + a := by omega
  simp only [Function.comp_apply, h]

theorem joinFold_script_none (n : Nat) :
    ∀ s (output : Value),
      joinFold joinVal output (valueScript (fun _ => Value.none) s n)
        = .ok output := by
  induction n with
  | zero => intro s output; rfl
  | succ n ih =>
    intro s output
    rw [valueScript_succ]
    simp only [joinFold, joinVal_none_right]
    exact ih (s + 1) output

theorem whileAux_capWhile (k : Nat) :
    ∀ i (output : Value) (vm : Vm), vm.flow = none →
      MAX_ITERATIONS - i = k →
      whileAux joinVal capWhile i output vm =
        (.error ⟨3, "loop seems to be infinite"⟩,
          { vm with store := vm.store + (MAX_ITERATIONS - i) }) := by
  induction k with
  | zero =>
    intro i output vm hf hk
    have hcap : MAX_ITERATIONS ≤ i := by omega
    have hc : capWhile.condEval vm = (.ok (.bool true), vm) := rfl
    have hcb : castBool (.bool true) capWhile.condSpan = .ok true := rfl
    rw [whileAux_cap hc hcb hcap, hk]
    simp [capWhile]
  | succ k ih =>
    intro i output vm hf hk
    have hcap : i < MAX_ITERATIONS := by omega
    have hc : capWhile.condEval vm = (.ok (.bool true), vm) := rfl
    have hcb : castBool (.bool true) capWhile.condSpan = .ok true := rfl
    have hbody : capWhile.bodyEval vm
        = (.ok Value.none, { vm with store := vm.store + 1 }) := rfl
    have hguard :
        ((i == 0 : Bool) && is_invariant capWhile.condNode
          && !can_diverge capWhile.bodyNode) = false := by
      simp [capWhile, is_invariant]
    have hf2 : ({ vm with store := vm.store + 1 } : Vm).flow = none := hf
    rw [whileAux_step_next hc hcb hguard hcap hbody
      (joinVal_none_right output) hf2]
    rw [ih (i + 1) output { vm with store := vm.store + 1 } hf2 (by omega)]
    have harith :
        vm.store + 1 + (MAX_ITERATIONS - (i + 1))
          = vm.store + (MAX_ITERATIONS - i) := by omega
    simp only [harith]

theorem whileAux_countdown (n : Nat) (bvals : Nat → Value) (join : JoinFn)
    (hn : n ≤ MAX_ITERATIONS) (k : Nat) :
    ∀ i (output r : Value) (vm : Vm), vm.flow = none → vm.store = i →
      n - i = k → i ≤ n →
      joinFold join output (valueScript bvals i (n - i)) = .ok r →
      whileAux join (countdownWhile n bvals) i output vm =
        (.ok r, { vm with store := n }) := by
  induction k with
  | zero =>
    intro i output r vm hf hs hk hin hfold
    have hin' : i = n := by omega
    have hc : (countdownWhile n bvals).condEval vm = (.ok (.bool false), vm) := by
      simp [countdownWhile, hs, hin']
    have hcb : castBool (.bool false) (countdownWhile n bvals).condSpan
        = .ok false := rfl
    rw [whileAux_cond_false hc hcb]
    rw [hk] at hfold
    simp only [valueScript, List.range_zero, List.map_nil, joinFold] at hfold
    cases hfold
    rw [← hin', ← hs]
  | succ k ih =>
    intro i output r vm hf hs hk hin hfold
    have hlt : i < n := by omega
    have hc : (countdownWhile n bvals).condEval vm = (.ok (.bool true), vm) := by
      simp [countdownWhile, hs, hlt]
    have hguard :
        ((i == 0 : Bool) && is_invariant (countdownWhile n bvals).condNode
          && !can_diverge (countdownWhile n bvals).bodyNode) = false := by
      simp [countdownWhile, is_invariant]
    have hcap : i < MAX_ITERATIONS := by omega
    have hbody : (countdownWhile n bvals).bodyEval vm
        = (.ok (bvals i), { vm with store := vm.store + 1 }) := by
      simp [countdownWhile, hs]
    rw [hk] at hfold
    rw [valueScript_succ] at hfold
    simp only [joinFold] at hfold
    cases hj : join output (bvals i) with
    | error m => rw [hj] at hfold; cases hfold
    | ok output2 =>
      rw [hj] at hfold
      have hf2 : ({ vm with store := vm.store + 1 } : Vm).flow = none := hf
      have hcb : castBool (.bool true) (countdownWhile n bvals).condSpan
          = .ok true := rfl
      rw [whileAux_step_next hc hcb hguard hcap hbody hj hf2]
      have hs2 : ({ vm with store := vm.store + 1 } : Vm).store = i + 1 := by
        simp [hs]
      have hk2 : n - (i + 1) = k := by omega
      rw [ih (i + 1) output2 r { vm with store := vm.store + 1 }
        hf2 hs2 hk2 (by omega) (by rw [hk2]; exact hfold)]

/-! ## Step lemmas for the for loop -/

theorem forEval_iter_error {join : JoinFn} {f : ForExpr} {vm vm1 : Vm}
    {d : Diag} (hi : f.iterEval { vm with flow := none } = (.error d, vm1)) :
    forEval join f vm = (.error d, vm1) := by
  unfold forEval; rw [hi]

theorem forEval_iter_ok {join : JoinFn} {f : ForExpr} {vm vm1 : Vm}
    {iter : Value} (hi : f.iterEval { vm with flow := none } = (.ok iter, vm1)) :
    forEval join f vm = restoreFlow vm.flow (forDispatch join f iter vm1) := by
  unfold forEval; rw [hi]

theorem forDispatch_str {join : JoinFn} {f : ForExpr} {s : String} {vm1 : Vm}
    {name : String} (hp : f.pattern = .normal name) :
    forDispatch join f (.str s) vm1
      = iterRun join f ((f.graphemes s).map Value.str) vm1 := by
  unfold forDispatch; rw [hp]

theorem forDispatch_dict {join : JoinFn} {f : ForExpr}
    {pairs : List (String × Value)} {vm1 : Vm} :
    forDispatch join f (.dict pairs) vm1
      = iterRun join f (dictPairs pairs) vm1 := by
  unfold forDispatch; cases f.pattern <;> rfl

theorem forDispatch_array {join : JoinFn} {f : ForExpr} {elems : List Value}
    {vm1 : Vm} :
    forDispatch join f (.array elems) vm1 = iterRun join f elems vm1 := by
  unfold forDispatch; cases f.pattern <;> rfl

theorem forDispatch_loop_error {join : JoinFn} {f : ForExpr} {v : Value}
    {vm1 : Vm} {name : String} (hp : f.pattern = .normal name)
    (h1 : ∀ s, v ≠ .str s) (h2 : ∀ p, v ≠ .dict p)
    (h3 : ∀ a, v ≠ .array a) :
    forDispatch join f v vm1
      = (.error ⟨f.iterSpan, "cannot loop over " ++ v.ty⟩, vm1) := by
  unfold forDispatch
  rw [hp]
  cases v with
  | str s => exact absurd rfl (h1 s)
  | dict p => exact absurd rfl (h2 p)
  | array a => exact absurd rfl (h3 a)
  | none => rfl
  | bool b => rfl
  | int i => rfl

theorem forDispatch_destructure_error {join : JoinFn} {f : ForExpr}
    {v : Value} {vm1 : Vm} (hp : ∀ name, f.pattern ≠ .normal name)
    (h2 : ∀ p, v ≠ .dict p) (h3 : ∀ a, v ≠ .array a) :
    forDispatch join f v vm1
      = (.error ⟨f.patternSpan, "cannot destructure values of " ++ v.ty⟩,
          vm1) := by
  unfold forDispatch
  cases hpp : f.pattern with
  | normal name => exact absurd hpp (hp name)
  | placeholder =>
    cases v with
    | dict p => exact absurd rfl (h2 p)
    | array a => exact absurd rfl (h3 a)
    | none => rfl
    | bool b => rfl
    | int i => rfl
    | str s => rfl
  | destructuring tag =>
    cases v with
    | dict p => exact absurd rfl (h2 p)
    | array a => exact absurd rfl (h3 a)
    | none => rfl
    | bool b => rfl
    | int i => rfl
    | str s => rfl

/-- Per-item step facts for `forBody`, one per flow-slot outcome. -/
theorem forBody_dstr_error {join : JoinFn} {f : ForExpr} {item : Value}
    {rest : List Value} {output : Value} {vm vm1 : Vm} {d : Diag}
    (hd : f.dstr f.pattern item vm = (.error d, vm1)) :
    forBody join f (item :: rest) output vm = (.error d, vm1) := by
  simp only [forBody, hd]

theorem forBody_body_error {join : JoinFn} {f : ForExpr} {item : Value}
    {rest : List Value} {output : Value} {vm vm1 vm2 : Vm} {d : Diag}
    (hd : f.dstr f.pattern item vm = (.ok (), vm1))
    (hb : f.bodyEval vm1 = (.error d, vm2)) :
    forBody join f (item :: rest) output vm = (.error d, vm2) := by
  simp only [forBody, hd, hb]

theorem forBody_join_error {join : JoinFn} {f : ForExpr} {item : Value}
    {rest : List Value} {output value : Value} {vm vm1 vm2 : Vm} {m : String}
    (hd : f.dstr f.pattern item vm = (.ok (), vm1))
    (hb : f.bodyEval vm1 = (.ok value, vm2))
    (hj : join output value = .error m) :
    forBody join f (item :: rest) output vm = (.error ⟨f.bodySpan, m⟩, vm2) := by
  simp only [forBody, hd, hb, hj]

theorem forBody_step_break {join : JoinFn} {f : ForExpr} {item : Value}
    {rest : List Value} {output value output2 : Value} {vm vm1 vm2 : Vm}
    {s : Nat}
    (hd : f.dstr f.pattern item vm = (.ok (), vm1))
    (hb : f.bodyEval vm1 = (.ok value, vm2))
    (hj : join output value = .ok output2)
    (hf : vm2.flow = some (.Break s)) :
    forBody join f (item :: rest) output vm
      = (.ok output2, { vm2 with flow := none }) := by
  simp only [forBody, hd, hb, hj, hf]

theorem forBody_step_continue {join : JoinFn} {f : ForExpr} {item : Value}
    {rest : List Value} {output value output2 : Value} {vm vm1 vm2 : Vm}
    {s : Nat}
    (hd : f.dstr f.pattern item vm = (.ok (), vm1))
    (hb : f.bodyEval vm1 = (.ok value, vm2))
    (hj : join output value = .ok output2)
    (hf : vm2.flow = some (.Continue s)) :
    forBody join f (item :: rest) output vm
      = forBody join f rest output2 { vm2 with flow := none } := by
  simp only [forBody, hd, hb, hj, hf]

theorem forBody_step_return {join : JoinFn} {f : ForExpr} {item : Value}
    {rest : List Value} {output value output2 : Value} {vm vm1 vm2 : Vm}
    {s : Nat} {rv : Option Value}
    (hd : f.dstr f.pattern item vm = (.ok (), vm1))
    (hb : f.bodyEval vm1 = (.ok value, vm2))
    (hj : join output value = .ok output2)
    (hf : vm2.flow = some (.Return s rv)) :
    forBody join f (item :: rest) output vm = (.ok output2, vm2) := by
  simp only [forBody, hd, hb, hj, hf]

theorem forBody_step_next {join : JoinFn} {f : ForExpr} {item : Value}
    {rest : List Value} {output value output2 : Value} {vm vm1 vm2 : Vm}
    (hd : f.dstr f.pattern item vm = (.ok (), vm1))
    (hb : f.bodyEval vm1 = (.ok value, vm2))
    (hj : join output value = .ok output2)
    (hf : vm2.flow = none) :
    forBody join f (item :: rest) output vm
      = forBody join f rest output2 vm2 := by
  simp only [forBody, hd, hb, hj, hf]

/-! ## Scripted for-loop executions -/

theorem forBody_script {join : JoinFn} {f : ForExpr} {bvals : Nat → Value}
    (Hd : ∀ p v vm, f.dstr p v vm = (.ok (), vm))
    (Hb : ∀ vm : Vm, f.bodyEval vm
      = (.ok (bvals vm.store), { vm with store := vm.store + 1 })) :
    ∀ (items : List Value) (output r : Value) (vm : Vm), vm.flow = none →
      joinFold join output (valueScript bvals vm.store items.length) = .ok r →
      forBody join f items output vm
        = (.ok r, { vm with store := vm.store + items.length }) := by
  intro items
  induction items with
  | nil =>
    intro output r vm hf hfold
    simp only [List.length_nil, valueScript, List.range_zero, List.map_nil,
      joinFold] at hfold
    cases hfold
    simp [forBody]
  | cons item rest ih =>
    intro output r vm hf hfold
    simp only [List.length_cons] at hfold
    rw [valueScript_succ] at hfold
    simp only [joinFold] at hfold
    cases hj : join output (bvals vm.store) with
    | error m => rw [hj] at hfold; cases hfold
    | ok output2 =>
      rw [hj] at hfold
      have hf2 : ({ vm with store := vm.store + 1 } : Vm).flow = none := hf
      rw [forBody_step_next (Hd f.pattern item vm) (Hb vm) hj hf2]
      rw [ih output2 r { vm with store := vm.store + 1 } hf2 hfold]
      have harith : vm.store + 1 + rest.length
          = vm.store + (rest.length + 1) := by omega
      simp only [harith, List.length_cons]

theorem forBody_script_break {join : JoinFn} {f : ForExpr}
    {bvals : Nat → Value} {t bspan : Nat}
    (Hd : ∀ p v vm, f.dstr p v vm = (.ok (), vm))
    (Hb : ∀ vm : Vm, f.bodyEval vm
      = (.ok (bvals vm.store),
          { vm with store := vm.store + 1,
                    flow := if vm.store == t then some (.Break bspan)
                            else vm.flow })) :
    ∀ (items : List Value) (output r : Value) (vm : Vm), vm.flow = none →
      vm.store ≤ t → t < vm.store + items.length →
      joinFold join output (valueScript bvals vm.store (t + 1 - vm.store))
        = .ok r →
      forBody join f items output vm
        = (.ok r, { vm with store := t + 1, flow := none }) := by
  intro items
  induction items with
  | nil =>
    intro output r vm hf hle hlt hfold
    simp only [List.length_nil] at hlt
    omega
  | cons item rest ih =>
    intro output r vm hf hle hlt hfold
    by_cases ht : vm.store = t
    · have hscript : t + 1 - vm.store = 1 := by omega
      rw [hscript, valueScript_succ] at hfold
      simp only [valueScript, List.range_zero, List.map_nil, joinFold]
        at hfold
      cases hj : join output (bvals vm.store) with
      | error m => rw [hj] at hfold; cases hfold
      | ok output2 =>
        rw [hj] at hfold
        cases hfold
        have hbreak : ((vm.store == t : Bool)) = true := by simp [ht]
        have hbody : f.bodyEval vm
            = (.ok (bvals vm.store),
                { vm with store := vm.store + 1,
                          flow := some (.Break bspan) }) := by
          rw [Hb vm, hbreak]
          simp
        have hfl :
            ({ vm with store := vm.store + 1, flow := some (.Break bspan) } : Vm).flow
              = some (.Break bspan) := rfl
        rw [forBody_step_break (Hd f.pattern item vm) hbody hj hfl]
        simp [ht]
    · have hlt2 : vm.store < t := by omega
      have hscript : t + 1 - vm.store = (t + 1 - (vm.store + 1)) + 1 := by
        omega
      rw [hscript, valueScript_succ] at hfold
      simp only [joinFold] at hfold
      cases hj : join output (bvals vm.store) with
      | error m => rw [hj] at hfold; cases hfold
      | ok output2 =>
        rw [hj] at hfold
        have hnb : ((vm.store == t : Bool)) = false := by simp [ht]
        have hbody : f.bodyEval vm
            = (.ok (bvals vm.store), { vm with store := vm.store + 1 }) := by
          rw [Hb vm, hnb]
          simp [hf]
        have hf2 : ({ vm with store := vm.store + 1 } : Vm).flow = none := hf
        rw [forBody_step_next (Hd f.pattern item vm) hbody hj hf2]
        have hrec := ih output2 r { vm with store := vm.store + 1 } hf2
          (by simp; omega)
          (by simp only [List.length_cons] at hlt; simp; omega)
          hfold
        rw [hrec]

/-! ## Scope-depth accounting for the for loop -/

theorem forBody_scopes_length {join : JoinFn} {f : ForExpr}
    (Hd : ∀ p v vm, ((f.dstr p v vm).2).scopes.length = vm.scopes.length)
    (Hb : ∀ vm : Vm, ((f.bodyEval vm).2).scopes.length = vm.scopes.length) :
    ∀ (items : List Value) (output : Value) (vm : Vm),
      ((forBody join f items output vm).2).scopes.length
        = vm.scopes.length := by
  intro items
  induction items with
  | nil => intro output vm; rfl
  | cons item rest ih =>
    intro output vm
    rcases hd : f.dstr f.pattern item vm with ⟨rd, vm1⟩
    have hl1 : vm1.scopes.length = vm.scopes.length := by
      have := Hd f.pattern item vm; rw [hd] at this; exact this
    cases rd with
    | error d => simp only [forBody, hd]; exact hl1
    | ok u =>
      rcases hb : f.bodyEval vm1 with ⟨rb, vm2⟩
      have hl2 : vm2.scopes.length = vm1.scopes.length := by
        have := Hb vm1; rw [hb] at this; exact this
      cases rb with
      | error d => simp only [forBody, hd, hb]; omega
      | ok value =>
        cases hj : join output value with
        | error m => simp only [forBody, hd, hb, hj]; omega
        | ok output2 =>
          cases hfl : vm2.flow with
          | none => simp only [forBody, hd, hb, hj, hfl]; rw [ih]; omega
          | some e =>
            cases e with
            | Break s => simp only [forBody, hd, hb, hj, hfl]; omega
            | Continue s =>
              simp only [forBody, hd, hb, hj, hfl]
              rw [ih]
              simp
              omega
            | Return s rv => simp only [forBody, hd, hb, hj, hfl]; omega

theorem iterRun_scopes_ok {join : JoinFn} {f : ForExpr}
    (Hd : ∀ p v vm, ((f.dstr p v vm).2).scopes.length = vm.scopes.length)
    (Hb : ∀ vm : Vm, ((f.bodyEval vm).2).scopes.length = vm.scopes.length)
    {items : List Value} {vm vmf : Vm} {r : Value}
    (h : iterRun join f items vm = (.ok r, vmf)) :
    vmf.scopes.length = vm.scopes.length := by
  unfold iterRun at h
  rcases hfb : forBody join f items Value.none vm.enterScope with ⟨rb, vm1⟩
  have hl : vm1.scopes.length = vm.scopes.length + 1 := by
    have := @forBody_scopes_length join f Hd Hb items Value.none
      vm.enterScope
    rw [hfb] at this
    simpa [Vm.enterScope] using this
  rw [hfb] at h
  cases rb with
  | error d => cases h
  | ok output =>
    cases h
    simp [Vm.exitScope, hl]

theorem iterRun_scopes_error {join : JoinFn} {f : ForExpr}
    (Hd : ∀ p v vm, ((f.dstr p v vm).2).scopes.length = vm.scopes.length)
    (Hb : ∀ vm : Vm, ((f.bodyEval vm).2).scopes.length = vm.scopes.length)
    {items : List Value} {vm vmf : Vm} {d : Diag}
    (h : iterRun join f items vm = (.error d, vmf)) :
    vmf.scopes.length = vm.scopes.length + 1 := by
  unfold iterRun at h
  rcases hfb : forBody join f items Value.none vm.enterScope with ⟨rb, vm1⟩
  have hl : vm1.scopes.length = vm.scopes.length + 1 := by
    have := @forBody_scopes_length join f Hd Hb items Value.none
      vm.enterScope
    rw [hfb] at this
    simpa [Vm.enterScope] using this
  rw [hfb] at h
  cases rb with
  | error d2 => cases h; exact hl
  | ok output => cases h

/-! ## The invariance lint consults the syntax only at iteration 0 -/

theorem whileAux_syntax_independent {join : JoinFn} {w : WhileExpr}
    (c b : SyntaxNode) :
    ∀ k i (output : Value) (vm : Vm), MAX_ITERATIONS - i ≤ k → i ≠ 0 →
      whileAux join { w with condNode := c, bodyNode := b } i output vm
        = whileAux join w i output vm := by
  intro k
  induction k with
  | zero =>
    intro i output vm hk hi
    have hcap : MAX_ITERATIONS ≤ i := by omega
    rcases hcv : w.condEval vm with ⟨r, vm1⟩
    have hcv' : ({ w with condNode := c, bodyNode := b } : WhileExpr).condEval
        vm = (r, vm1) := hcv
    cases r with
    | error d => rw [whileAux_cond_error hcv', whileAux_cond_error hcv]
    | ok cv =>
      cases hcb : castBool cv w.condSpan with
      | error d =>
        rw [whileAux_cond_cast_error hcv' hcb, whileAux_cond_cast_error hcv hcb]
      | ok bv =>
        cases bv with
        | false =>
          rw [whileAux_cond_false hcv' hcb, whileAux_cond_false hcv hcb]
        | true => rw [whileAux_cap hcv' hcb hcap, whileAux_cap hcv hcb hcap]
  | succ k ih =>
    intro i output vm hk hi
    have h0 : (i == 0) = false := by simp only [beq_eq_false_iff_ne]; omega
    have hg : (i == 0 && is_invariant w.condNode && !can_diverge w.bodyNode)
        = false := by simp [h0]
    have hg' : (i == 0 && is_invariant c && !can_diverge b) = false := by
      simp [h0]
    rcases hcv : w.condEval vm with ⟨r, vm1⟩
    have hcv' : ({ w with condNode := c, bodyNode := b } : WhileExpr).condEval
        vm = (r, vm1) := hcv
    cases r with
    | error d => rw [whileAux_cond_error hcv', whileAux_cond_error hcv]
    | ok cv =>
      cases hcb : castBool cv w.condSpan with
      | error d =>
        rw [whileAux_cond_cast_error hcv' hcb, whileAux_cond_cast_error hcv hcb]
      | ok bv =>
        cases bv with
        | false =>
          rw [whileAux_cond_false hcv' hcb, whileAux_cond_false hcv hcb]
        | true =>
          by_cases hcap : MAX_ITERATIONS ≤ i
          · rw [whileAux_cap hcv' hcb hcap, whileAux_cap hcv hcb hcap]
          · replace hcap := Nat.lt_of_not_le hcap
            rcases hbv : w.bodyEval vm1 with ⟨rb, vm2⟩
            have hbv' : ({ w with condNode := c, bodyNode := b }
                : WhileExpr).bodyEval vm1 = (rb, vm2) := hbv
            cases rb with
            | error d =>
              rw [whileAux_body_error hcv' hcb hg' hcap hbv',
                whileAux_body_error hcv hcb hg hcap hbv]
            | ok value =>
              cases hj : join output value with
              | error m =>
                rw [whileAux_join_error hcv' hcb hg' hcap hbv' hj,
                  whileAux_join_error hcv hcb hg hcap hbv hj]
              | ok output2 =>
                cases hfl : vm2.flow with
                | none =>
                  rw [whileAux_step_next hcv' hcb hg' hcap hbv' hj hfl,
                    whileAux_step_next hcv hcb hg hcap hbv hj hfl]
                  exact ih (i + 1) output2 vm2 (by omega) (by omega)
                | some e =>
                  cases e with
                  | Break s =>
                    rw [whileAux_step_break hcv' hcb hg' hcap hbv' hj hfl,
                      whileAux_step_break hcv hcb hg hcap hbv hj hfl]
                  | Continue s =>
                    rw [whileAux_step_continue hcv' hcb hg' hcap hbv' hj hfl,
                      whileAux_step_continue hcv hcb hg hcap hbv hj hfl]
                    exact ih (i + 1) output2 { vm2 with flow := none }
                      (by omega) (by omega)
                  | Return s rv =>
                    rw [whileAux_step_return hcv' hcb hg' hcap hbv' hj hfl,
                      whileAux_step_return hcv hcb hg hcap hbv hj hfl]

/-! ## Descendants and divergence -/

theorem SyntaxNode.sizeOf_pos (n : SyntaxNode) : 0 < sizeOf n := by
  cases n <;> simp_arith

theorem sizeOf_lt_of_mem_children {child n : SyntaxNode}
    (h : child ∈ n.children) : sizeOf child < sizeOf n := by
  cases n with
  | ident name => simp [SyntaxNode.children] at h
  | mathIdent name => simp [SyntaxNode.children] at h
  | fieldAccess receiver field =>
    simp only [SyntaxNode.children, List.mem_cons, List.mem_singleton,
      List.not_mem_nil, or_false] at h
    have hr := SyntaxNode.sizeOf_pos receiver
    rcases h with h | h
    · subst h; simp_arith
    · subst h
      simp_arith
      omega
  | funcCall callee args =>
    simp only [SyntaxNode.children, List.mem_cons, List.mem_singleton,
      List.not_mem_nil, or_false] at h
    rcases h with h | h <;> subst h <;> simp_arith
  | breakNode => simp [SyntaxNode.children] at h
  | continueNode => simp [SyntaxNode.children] at h
  | returnNode body =>
    cases body with
    | none => simp [SyntaxNode.children] at h
    | some bd =>
      simp only [SyntaxNode.children, List.mem_singleton] at h
      subst h
      simp_arith
  | other tag children =>
    have := List.sizeOf_lt_of_mem h
    simp only [SyntaxNode.children] at h
    have hmem := List.sizeOf_lt_of_mem h
    simp_arith
    omega

theorem anyDiverge_exists {cs : List SyntaxNode} (h : anyDiverge cs = true) :
    ∃ child ∈ cs, can_diverge child = true := by
  induction cs with
  | nil => cases h
  | cons c cs ih =>
    simp only [anyDiverge, Bool.or_eq_true] at h
    rcases h with h | h
    · exact ⟨c, List.mem_cons_self c cs, h⟩
    · rcases ih h with ⟨child, hmem, hdiv⟩
      exact ⟨child, List.mem_cons_of_mem c hmem, hdiv⟩

theorem anyDiverge_of_mem {cs : List SyntaxNode} {child : SyntaxNode}
    (hmem : child ∈ cs) (h : can_diverge child = true) :
    anyDiverge cs = true := by
  induction cs with
  | nil => cases hmem
  | cons c cs ih =>
    rcases List.mem_cons.mp hmem with hc | hc
    · subst hc; simp [anyDiverge, h]
    · simp [anyDiverge, ih hc]

theorem descendant_diverges {m n : SyntaxNode} (hd : Descendant m n)
    (hm : m.isBreakOrReturn = true) : can_diverge n = true := by
  induction hd with
  | refl =>
    rw [can_diverge_eq_children_formula, hm, Bool.true_or]
  | step hc _hd ih =>
    rw [can_diverge_eq_children_formula]
    have : (SyntaxNode.children _).any can_diverge = true :=
      List.any_eq_true.mpr ⟨_, hc, ih⟩
    rw [this, Bool.or_true]

theorem diverge_has_descendant :
    ∀ (fuel : Nat) (n : SyntaxNode), sizeOf n ≤ fuel →
      can_diverge n = true →
      ∃ m, Descendant m n ∧ m.isBreakOrReturn = true := by
  intro fuel
  induction fuel with
  | zero =>
    intro n hsz hdiv
    exact absurd (SyntaxNode.sizeOf_pos n) (by omega)
  | succ fuel ih =>
    intro n hsz hdiv
    rw [can_diverge_eq_children_formula, Bool.or_eq_true] at hdiv
    rcases hdiv with hk | hany
    · exact ⟨n, Descendant.refl n, hk⟩
    · rcases List.any_eq_true.mp hany with ⟨child, hmem, hc⟩
      have hlt := sizeOf_lt_of_mem_children hmem
      rcases ih child (by omega) hc with ⟨m, hdm, hm⟩
      exact ⟨m, Descendant.step hmem hdm, hm⟩

/-! ## Concrete fixtures -/

/-- A `while true { }` loop: invariant condition, empty body that cannot
break or return. -/
def lintWhile : WhileExpr :=
  { condNode := .other 0 []
    bodyNode := .other 1 []
    condSpan := 1
    bodySpan := 2
    loopSpan := 3
    condEval := fun vm => (.ok (.bool true), vm)
    bodyEval := fun vm => (.ok Value.none, vm) }

/-- A while loop whose condition evaluation itself fails. -/
def errWhile : WhileExpr :=
  { condNode := .ident "x"
    bodyNode := .other 0 []
    condSpan := 1
    bodySpan := 2
    loopSpan := 3
    condEval := fun vm => (.error ⟨9, "boom"⟩, vm)
    bodyEval := fun vm => (.ok Value.none, vm) }

/-- A for loop over the array `(1, 2, 3)` with a pure destructure and a
scripted body. -/
def scriptFor (bvals : Nat → Value) : ForExpr :=
  { pattern := .normal "x"
    patternSpan := 5
    iterSpan := 6
    bodySpan := 7
    iterEval := fun vm => (.ok (.array [.int 1, .int 2, .int 3]), vm)
    dstr := fun _ _ vm => (.ok (), vm)
    bodyEval := fun vm =>
      (.ok (bvals vm.store), { vm with store := vm.store + 1 })
    graphemes := fun s => [s] }

/-- A for loop over a one-element array whose body evaluation fails. -/
def errFor : ForExpr :=
  { pattern := .normal "x"
    patternSpan := 5
    iterSpan := 6
    bodySpan := 7
    iterEval := fun vm => (.ok (.array [.int 1]), vm)
    dstr := fun _ _ vm => (.ok (), vm)
    bodyEval := fun vm => (.error ⟨8, "body failed"⟩, vm)
    graphemes := fun _ => [] }

/-- A for loop whose iterable evaluates to an integer. -/
def intFor : ForExpr :=
  { pattern := .normal "x"
    patternSpan := 5
    iterSpan := 6
    bodySpan := 7
    iterEval := fun vm => (.ok (.int 7), vm)
    dstr := fun _ _ vm => (.ok (), vm)
    bodyEval := fun vm => (.ok Value.none, vm)
    graphemes := fun s => [s] }

/-! ## The claims -/

/-- Claim C1: for a while loop whose condition evaluates to true on the
first check, evaluation fails with a "condition is always true" diagnostic
at the condition's span — whatever the body's evaluation function is, so the
body is never evaluated — exactly when the condition is syntactically
invariant and the body syntactically cannot break or return (when it is not,
the body is evaluated at least once, witnessed by the call counter); the
lint consults the syntax only at iteration index 0, and in particular
`while true { break }` does not trigger it and terminates normally after
one iteration with the identity output. -/
theorem claim_C1 :
    (∀ (join : JoinFn) (w : WhileExpr) (vm vm1 : Vm) (c : Value),
      w.condEval { vm with flow := none } = (.ok c, vm1) →
      castBool c w.condSpan = .ok true →
      is_invariant w.condNode = true → can_diverge w.bodyNode = false →
      ∀ g : EvalFn,
        whileEval join { w with bodyEval := g } vm
          = (.error ⟨w.condSpan, "condition is always true"⟩, vm1))
    ∧
    (∀ (join : JoinFn) (w : WhileExpr) (vm vm1 : Vm) (c : Value),
      (∀ vmx : Vm, ((w.condEval vmx).2).store = vmx.store) →
      (∀ vmx : Vm, ((w.bodyEval vmx).2).store = vmx.store + 1) →
      w.condEval { vm with flow := none } = (.ok c, vm1) →
      castBool c w.condSpan = .ok true →
      (is_invariant w.condNode && !can_diverge w.bodyNode) = false →
      vm.store + 1 ≤ ((whileEval join w vm).2).store)
    ∧
    (∀ (join : JoinFn) (w : WhileExpr) (cn bn : SyntaxNode) (i : Nat)
        (output : Value) (vm : Vm), i ≠ 0 →
      whileAux join { w with condNode := cn, bodyNode := bn } i output vm
        = whileAux join w i output vm)
    ∧
    whileEval joinVal whileTrueBreak ⟨none, [], 0⟩
      = (.ok Value.none, ⟨none, [], 0⟩) := by
  refine ⟨?_, ?_, ?_, ?_⟩
  · intro join w vm vm1 c hc hcb hinv hdiv g
    have hc' : ({ w with bodyEval := g } : WhileExpr).condEval
        { vm with flow := none } = (.ok c, vm1) := hc
    show restoreFlow vm.flow _ = _
    rw [whileAux_lint hc' hcb hinv hdiv, restoreFlow_error]
  · intro join w vm vm1 c Hc Hb hc hcb hni
    have hkey : vm.store + 1
        ≤ ((whileAux join w 0 Value.none { vm with flow := none }).2).store := by
      have hs1 : vm1.store = vm.store := by
        have := Hc { vm with flow := none }; rw [hc] at this; exact this
      have hguard :
          ((0 == 0 : Bool) && is_invariant w.condNode
            && !can_diverge w.bodyNode) = false := by
        simpa using hni
      have hcap : 0 < MAX_ITERATIONS := by decide
      rcases hbv : w.bodyEval vm1 with ⟨rb, vm2⟩
      have hs2 : vm2.store = vm1.store + 1 := by
        have := Hb vm1; rw [hbv] at this; exact this
      cases rb with
      | error d =>
        rw [whileAux_body_error hc hcb hguard hcap hbv]
        dsimp only
        omega
      | ok value =>
        cases hj : join Value.none value with
        | error m =>
          rw [whileAux_join_error hc hcb hguard hcap hbv hj]
          dsimp only
          omega
        | ok output2 =>
          cases hfl : vm2.flow with
          | none =>
            rw [whileAux_step_next hc hcb hguard hcap hbv hj hfl]
            have := @whileAux_store_mono join w Hc Hb MAX_ITERATIONS
              (0 + 1) output2 vm2 (by omega)
            omega
          | some e =>
            cases e with
            | Break s =>
              rw [whileAux_step_break hc hcb hguard hcap hbv hj hfl]
              dsimp only
              omega
            | Continue s =>
              rw [whileAux_step_continue hc hcb hguard hcap hbv hj hfl]
              have := @whileAux_store_mono join w Hc Hb MAX_ITERATIONS
                (0 + 1) output2 { vm2 with flow := none } (by omega)
              dsimp only at this
              omega
            | Return s rv =>
              rw [whileAux_step_return hc hcb hguard hcap hbv hj hfl]
              dsimp only
              omega
    have heq : whileEval join w vm
        = restoreFlow vm.flow
            (whileAux join w 0 Value.none { vm with flow := none }) := rfl
    rw [heq, restoreFlow_store]
    exact hkey
  · intro join w cn bn i output vm hi
    exact whileAux_syntax_independent cn bn (MAX_ITERATIONS + 1) i output vm
      (by omega) hi
  · have hc : whileTrueBreak.condEval ⟨none, [], 0⟩
        = (.ok (.bool true), ⟨none, [], 0⟩) := rfl
    have hcb : castBool (.bool true) whileTrueBreak.condSpan = .ok true := rfl
    have hguard :
        ((0 == 0 : Bool) && is_invariant whileTrueBreak.condNode
          && !can_diverge whileTrueBreak.bodyNode) = false := rfl
    have hcap : 0 < MAX_ITERATIONS := by decide
    have hbody : whileTrueBreak.bodyEval ⟨none, [], 0⟩
        = (.ok Value.none, ⟨some (.Break 4), [], 0⟩) := rfl
    have hj : joinVal Value.none Value.none = .ok Value.none := rfl
    have hfl : (⟨some (.Break 4), [], 0⟩ : Vm).flow = some (.Break 4) := rfl
    show restoreFlow (Option.none) _ = _
    rw [whileAux_step_break hc hcb hguard hcap hbody hj hfl]
    rfl

/-- Witness for C1: a concrete `while true { }` loop (invariant condition,
empty body) fails with the invariant lint at the condition's span. -/
theorem claim_C1_witness :
    whileEval joinVal { lintWhile with bodyEval := fun vm => (.ok Value.none, vm) }
        ⟨none, [], 0⟩
      = (.error ⟨1, "condition is always true"⟩, ⟨none, [], 0⟩) :=
  claim_C1.1 joinVal lintWhile ⟨none, [], 0⟩ ⟨none, [], 0⟩ (.bool true)
    rfl rfl rfl rfl (fun vm => (.ok Value.none, vm))

/-- Claim C2: with a condition that does not touch the instrumentation
counter and a body that bumps it once per evaluation, a while loop increases
the counter by at most the iteration cap of 10000, so the body is evaluated
at most 10000 times; when the condition is still true once the iteration
index has reached the cap, evaluation fails with "loop seems to be
infinite" at the loop's span; a concrete always-true loop fails exactly so
after 10000 body evaluations, while a loop whose condition turns false one
iteration before the cap completes normally. -/
theorem claim_C2 :
    (∀ (join : JoinFn) (w : WhileExpr) (vm : Vm),
      (∀ vmx : Vm, ((w.condEval vmx).2).store = vmx.store) →
      (∀ vmx : Vm, ((w.bodyEval vmx).2).store = vmx.store + 1) →
      ((whileEval join w vm).2).store ≤ vm.store + MAX_ITERATIONS)
    ∧
    (∀ (join : JoinFn) (w : WhileExpr) (i : Nat) (output c : Value)
        (vm vm1 : Vm),
      w.condEval vm = (.ok c, vm1) → castBool c w.condSpan = .ok true →
      MAX_ITERATIONS ≤ i →
      whileAux join w i output vm
        = (.error ⟨w.loopSpan, "loop seems to be infinite"⟩, vm1))
    ∧
    whileEval joinVal capWhile ⟨none, [], 0⟩
      = (.error ⟨3, "loop seems to be infinite"⟩,
          ⟨none, [], MAX_ITERATIONS⟩)
    ∧
    whileEval joinVal
        (countdownWhile (MAX_ITERATIONS - 1) fun _ => Value.none)
        ⟨none, [], 0⟩
      = (.ok Value.none, ⟨none, [], MAX_ITERATIONS - 1⟩) := by
  refine ⟨?_, ?_, ?_, ?_⟩
  · intro join w vm Hc Hb
    have heq : whileEval join w vm
        = restoreFlow vm.flow
            (whileAux join w 0 Value.none { vm with flow := none }) := rfl
    rw [heq, restoreFlow_store]
    have := @whileAux_store_le join w Hc Hb MAX_ITERATIONS 0
      Value.none { vm with flow := none } (by omega)
    simpa using this
  · intro join w i output c vm vm1 hc hcb hi
    exact whileAux_cap hc hcb hi
  · show restoreFlow (Option.none) _ = _
    rw [whileAux_capWhile MAX_ITERATIONS 0 Value.none ⟨none, [], 0⟩ rfl rfl]
    rw [restoreFlow_error]
    rfl
  · show restoreFlow (Option.none) _ = _
    rw [whileAux_countdown (MAX_ITERATIONS - 1) (fun _ => Value.none) joinVal
      (by omega) (MAX_ITERATIONS - 1) 0 Value.none Value.none ⟨none, [], 0⟩
      rfl rfl rfl (by omega)
      (joinFold_script_none (MAX_ITERATIONS - 1) 0 Value.none)]
    rfl

/-- Witness for C2: the instrumented bound and the cap diagnostic at
concrete inputs. -/
theorem claim_C2_witness :
    ((whileEval joinVal capWhile ⟨none, [], 0⟩).2).store ≤ 0 + MAX_ITERATIONS
    ∧ whileAux joinVal capWhile MAX_ITERATIONS Value.none ⟨none, [], 0⟩
        = (.error ⟨3, "loop seems to be infinite"⟩, ⟨none, [], 0⟩) :=
  ⟨claim_C2.1 joinVal capWhile ⟨none, [], 0⟩ (fun _ => rfl) (fun _ => rfl),
   claim_C2.2.1 joinVal capWhile MAX_ITERATIONS Value.none (.bool true)
     ⟨none, [], 0⟩ ⟨none, [], 0⟩ rfl rfl (Nat.le_refl _)⟩

/-- Claim C3: in both loops, after a body evaluation and a successful join,
the flow slot decides the continuation: a pending Break clears the slot and
stops with the accumulated value; a pending Continue clears the slot and
proceeds to the next iteration; a pending Return stops without clearing the
slot, so the identical signal survives in the resulting state; an empty
slot proceeds to the next iteration. -/
theorem claim_C3 :
    (∀ (join : JoinFn) (w : WhileExpr) (i : Nat)
        (output c value output2 : Value) (vm vm1 vm2 : Vm),
      w.condEval vm = (.ok c, vm1) →
      castBool c w.condSpan = .ok true →
      (i == 0 && is_invariant w.condNode && !can_diverge w.bodyNode)
        = false →
      i < MAX_ITERATIONS →
      w.bodyEval vm1 = (.ok value, vm2) →
      join output value = .ok output2 →
      ((∀ s, vm2.flow = some (.Break s) →
          whileAux join w i output vm
            = (.ok output2, { vm2 with flow := none }))
        ∧ (∀ s, vm2.flow = some (.Continue s) →
          whileAux join w i output vm
            = whileAux join w (i + 1) output2 { vm2 with flow := none })
        ∧ (∀ s rv, vm2.flow = some (.Return s rv) →
          whileAux join w i output vm = (.ok output2, vm2))
        ∧ (vm2.flow = none →
          whileAux join w i output vm
            = whileAux join w (i + 1) output2 vm2)))
    ∧
    (∀ (join : JoinFn) (f : ForExpr) (item : Value) (rest : List Value)
        (output value output2 : Value) (vm vm1 vm2 : Vm),
      f.dstr f.pattern item vm = (.ok (), vm1) →
      f.bodyEval vm1 = (.ok value, vm2) →
      join output value = .ok output2 →
      ((∀ s, vm2.flow = some (.Break s) →
          forBody join f (item :: rest) output vm
            = (.ok output2, { vm2 with flow := none }))
        ∧ (∀ s, vm2.flow = some (.Continue s) →
          forBody join f (item :: rest) output vm
            = forBody join f rest output2 { vm2 with flow := none })
        ∧ (∀ s rv, vm2.flow = some (.Return s rv) →
          forBody join f (item :: rest) output vm = (.ok output2, vm2))
        ∧ (vm2.flow = none →
          forBody join f (item :: rest) output vm
            = forBody join f rest output2 vm2))) := by
  constructor
  · intro join w i output c value output2 vm vm1 vm2 hc hcb hguard hcap
      hbody hj
    exact ⟨fun s hf => whileAux_step_break hc hcb hguard hcap hbody hj hf,
      fun s hf => whileAux_step_continue hc hcb hguard hcap hbody hj hf,
      fun s rv hf => whileAux_step_return hc hcb hguard hcap hbody hj hf,
      fun hf => whileAux_step_next hc hcb hguard hcap hbody hj hf⟩
  · intro join f item rest output value output2 vm vm1 vm2 hd hb hj
    exact ⟨fun s hf => forBody_step_break hd hb hj hf,
      fun s hf => forBody_step_continue hd hb hj hf,
      fun s rv hf => forBody_step_return hd hb hj hf,
      fun hf => forBody_step_next hd hb hj hf⟩

/-- Witness for C3: the `while true { break }` fixture performs exactly the
Break protocol: the iteration stops and the slot is cleared while the joined
output is retained. -/
theorem claim_C3_witness :
    whileAux joinVal whileTrueBreak 0 Value.none ⟨none, [], 0⟩
      = (.ok Value.none, ⟨none, [], 0⟩) :=
  (claim_C3.1 joinVal whileTrueBreak 0 Value.none (.bool true) Value.none
      Value.none ⟨none, [], 0⟩ ⟨none, [], 0⟩ ⟨some (.Break 4), [], 0⟩
      rfl rfl rfl (by decide) rfl rfl).1 4 rfl

/-- Claim C4: a loop that completes without an error produces the left fold
of the external join over the per-iteration body values in iteration order,
seeded with the identity value; the value of the iteration that raises
Break is still included.  Stated over scripted external collaborators whose
per-call values are read off the call counter: a for loop over an array
folds all scripted values; a for loop whose body breaks on call `t` folds
the values of calls `0..t` inclusive; a while loop that iterates `n` times
folds its `n` scripted values. -/
theorem claim_C4 :
    (∀ (join : JoinFn) (f : ForExpr) (bvals : Nat → Value)
        (items : List Value) (r : Value) (vm vm1 : Vm),
      (∀ p v vmx, f.dstr p v vmx = (.ok (), vmx)) →
      (∀ vmx : Vm, f.bodyEval vmx
        = (.ok (bvals vmx.store), { vmx with store := vmx.store + 1 })) →
      f.iterEval { vm with flow := none } = (.ok (.array items), vm1) →
      vm1.flow = none → vm1.store = 0 →
      joinFold join Value.none (valueScript bvals 0 items.length) = .ok r →
      forEval join f vm
        = restoreFlow vm.flow (.ok r, { vm1 with store := items.length }))
    ∧
    (∀ (join : JoinFn) (f : ForExpr) (bvals : Nat → Value) (t bspan : Nat)
        (items : List Value) (r : Value) (vm vm1 : Vm),
      (∀ p v vmx, f.dstr p v vmx = (.ok (), vmx)) →
      (∀ vmx : Vm, f.bodyEval vmx
        = (.ok (bvals vmx.store),
            { vmx with store := vmx.store + 1,
                       flow := if vmx.store == t then some (.Break bspan)
                               else vmx.flow })) →
      f.iterEval { vm with flow := none } = (.ok (.array items), vm1) →
      vm1.flow = none → vm1.store = 0 → t < items.length →
      joinFold join Value.none (valueScript bvals 0 (t + 1)) = .ok r →
      forEval join f vm
        = restoreFlow vm.flow (.ok r, { vm1 with store := t + 1 }))
    ∧
    (∀ (join : JoinFn) (n : Nat) (bvals : Nat → Value) (r : Value) (vm : Vm),
      n ≤ MAX_ITERATIONS → vm.flow = none → vm.store = 0 →
      joinFold join Value.none (valueScript bvals 0 n) = .ok r →
      whileEval join (countdownWhile n bvals) vm
        = (.ok r, { vm with store := n })) := by
  refine ⟨?_, ?_, ?_⟩
  · intro join f bvals items r vm vm1 Hd Hb hi hfl hst hfold
    rw [forEval_iter_ok hi, forDispatch_array]
    have hen : (vm1.enterScope).flow = none := hfl
    have hens : (vm1.enterScope).store = 0 := hst
    have hrun : iterRun join f items vm1
        = (.ok r, { vm1 with store := items.length }) := by
      unfold iterRun
      rw [forBody_script Hd Hb items Value.none r vm1.enterScope hen
        (by rw [show vm1.enterScope.store = 0 from hst]; exact hfold)]
      simp [Vm.enterScope, Vm.exitScope, hst]
    rw [hrun]
  · intro join f bvals t bspan items r vm vm1 Hd Hb hi hfl hst hlen hfold
    rw [forEval_iter_ok hi, forDispatch_array]
    have hen : (vm1.enterScope).flow = none := hfl
    have hens : (vm1.enterScope).store = 0 := hst
    have hrun : iterRun join f items vm1
        = (.ok r, { vm1 with store := t + 1 }) := by
      unfold iterRun
      rw [forBody_script_break Hd Hb items Value.none r vm1.enterScope hen
        (by rw [show vm1.enterScope.store = 0 from hst]; omega)
        (by rw [show vm1.enterScope.store = 0 from hst]; omega)
        (by rw [show vm1.enterScope.store = 0 from hst]; simpa using hfold)]
      simp [Vm.enterScope, Vm.exitScope, hfl]
    rw [hrun]
  · intro join n bvals r vm hn hfl hst hfold
    show restoreFlow vm.flow _ = _
    have hfl0 : ({ vm with flow := none } : Vm).flow = none := rfl
    have hst0 : ({ vm with flow := none } : Vm).store = 0 := hst
    rw [whileAux_countdown n bvals join hn (n - 0) 0 Value.none r
      { vm with flow := none } hfl0 hst0 rfl (by omega)
      (by simpa using hfold)]
    rw [hfl]
    rfl

/-- Witness for C4: the scripted for loop over `(1, 2, 3)` with a body that
always produces the identity folds to the identity after three
iterations. -/
theorem claim_C4_witness :
    forEval joinVal (scriptFor fun _ => Value.none) ⟨none, [], 0⟩
      = restoreFlow none (.ok Value.none, ⟨none, [], 3⟩) :=
  claim_C4.1 joinVal (scriptFor fun _ => Value.none) (fun _ => Value.none)
    [.int 1, .int 2, .int 3] Value.none ⟨none, [], 0⟩ ⟨none, [], 0⟩
    (fun _ _ _ => rfl) (fun _ => rfl) rfl rfl rfl
    (joinFold_script_none 3 0 Value.none)

/-- Claim C5 (amended): both loop evaluators take the pending flow signal
and run the iteration on a cleared slot; on every evaluation that returns a
value, a non-empty saved signal is restored verbatim, overwriting whatever
the loop's own execution left in the slot.  (On an aborting error exit the
restoration is skipped — see the counterexample.) -/
theorem claim_C5 :
    (∀ (join : JoinFn) (w : WhileExpr) (vm : Vm),
      whileEval join w vm
        = restoreFlow vm.flow
            (whileAux join w 0 Value.none { vm with flow := none }))
    ∧
    (∀ (join : JoinFn) (w : WhileExpr) (vm vmf : Vm) (e : FlowEvent)
        (r : Value),
      vm.flow = some e → whileEval join w vm = (.ok r, vmf) →
      vmf.flow = some e)
    ∧
    (∀ (join : JoinFn) (f : ForExpr) (vm vmf : Vm) (e : FlowEvent)
        (r : Value),
      vm.flow = some e → forEval join f vm = (.ok r, vmf) →
      vmf.flow = some e) := by
  refine ⟨?_, ?_, ?_⟩
  · intro join w vm
    rfl
  · intro join w vm vmf e r hflow heval
    have heq : whileEval join w vm
        = restoreFlow vm.flow
            (whileAux join w 0 Value.none { vm with flow := none }) := rfl
    rw [heq] at heval
    rcases hax : whileAux join w 0 Value.none { vm with flow := none }
      with ⟨ra, vma⟩
    rw [hax] at heval
    cases ra with
    | error d => cases heval
    | ok v =>
      rw [restoreFlow_ok_some hflow] at heval
      cases heval
      exact hflow ▸ rfl
  · intro join f vm vmf e r hflow heval
    rcases hi : f.iterEval { vm with flow := none } with ⟨ri, vm1⟩
    cases ri with
    | error d => rw [forEval_iter_error hi] at heval; cases heval
    | ok iter =>
      rw [forEval_iter_ok hi] at heval
      rcases hdp : forDispatch join f iter vm1 with ⟨rd, vm2⟩
      rw [hdp] at heval
      cases rd with
      | error d => cases heval
      | ok v =>
        rw [restoreFlow_ok_some hflow] at heval
        cases heval
        exact hflow ▸ rfl

/-- Witness for C5: a saved Break signal survives a while loop that
completes normally (the countdown loop with `n = 0`). -/
theorem claim_C5_witness :
    ((whileEval joinVal (countdownWhile 0 fun _ => Value.none)
        ⟨some (.Break 5), [], 0⟩).2).flow = some (.Break 5) := by
  have h := claim_C5.2.1 joinVal (countdownWhile 0 fun _ => Value.none)
    ⟨some (.Break 5), [], 0⟩
  have heval : whileEval joinVal (countdownWhile 0 fun _ => Value.none)
      ⟨some (.Break 5), [], 0⟩
      = (.ok Value.none, ⟨some (.Break 5), [], 0⟩) := by
    show restoreFlow (some (.Break 5))
        (whileAux joinVal (countdownWhile 0 fun _ => Value.none) 0 Value.none
          ⟨none, [], 0⟩) = _
    rw [whileAux_countdown 0 (fun _ => Value.none) joinVal (by omega) 0 0
      Value.none Value.none ⟨none, [], 0⟩ rfl rfl rfl (by omega) rfl]
    rfl
  rw [heval]

/-- Counterexample for C5: when the loop aborts with an error (here: the
condition evaluation fails), the evaluator returns before the restoration,
so the saved Break signal is NOT restored — the claim's "restored through
any path" fails on the abort path. -/
theorem claim_C5_counterexample :
    whileEval joinVal errWhile ⟨some (.Break 5), [], 0⟩
      = (.error ⟨9, "boom"⟩, ⟨none, [], 0⟩)
    ∧ ((⟨none, [], 0⟩ : Vm).flow ≠ some (.Break 5)) := by
  constructor
  · have h1 : whileAux joinVal errWhile 0 Value.none ⟨none, [], 0⟩
        = (.error ⟨9, "boom"⟩, ⟨none, [], 0⟩) := whileAux_cond_error rfl
    show restoreFlow (some (.Break 5))
        (whileAux joinVal errWhile 0 Value.none ⟨none, [], 0⟩) = _
    rw [h1]
    rfl
  · simp

/-- Claim C6: evaluating a break, continue, or return expression always
produces `Value::None` as its own result; it writes the matching flow
variant (with the expression's span and, for return, the evaluated operand)
only when the slot is empty and leaves a pending signal unchanged; the
return operand is evaluated before the slot is checked, so its state effect
happens even when the write is a no-op. -/
theorem claim_C6 :
    (∀ (span : Nat) (vm : Vm),
      (loopBreakEval span vm).1 = .ok Value.none)
    ∧ (∀ (span : Nat) (vm : Vm), vm.flow = none →
      (loopBreakEval span vm).2 = { vm with flow := some (.Break span) })
    ∧ (∀ (span : Nat) (vm : Vm) (e : FlowEvent), vm.flow = some e →
      (loopBreakEval span vm).2 = vm)
    ∧ (∀ (span : Nat) (vm : Vm),
      (loopContinueEval span vm).1 = .ok Value.none)
    ∧ (∀ (span : Nat) (vm : Vm), vm.flow = none →
      (loopContinueEval span vm).2 = { vm with flow := some (.Continue span) })
    ∧ (∀ (span : Nat) (vm : Vm) (e : FlowEvent), vm.flow = some e →
      (loopContinueEval span vm).2 = vm)
    ∧ (∀ (r : ReturnExpr) (vm : Vm), r.body = Option.none →
      funcReturnEval r vm
        = (.ok Value.none,
            if vm.flow.isNone then
              { vm with flow := some (.Return r.span Option.none) }
            else vm))
    ∧ (∀ (r : ReturnExpr) (g : EvalFn) (vm vm1 : Vm) (v : Value),
      r.body = some g → g vm = (.ok v, vm1) →
      funcReturnEval r vm
        = (.ok Value.none,
            if vm1.flow.isNone then
              { vm1 with flow := some (.Return r.span (some v)) }
            else vm1))
    ∧ (∀ (r : ReturnExpr) (g : EvalFn) (vm vm1 : Vm) (d : Diag),
      r.body = some g → g vm = (.error d, vm1) →
      funcReturnEval r vm = (.error d, vm1)) := by
  refine ⟨?_, ?_, ?_, ?_, ?_, ?_, ?_, ?_, ?_⟩
  · intro span vm; rfl
  · intro span vm h; simp [loopBreakEval, h]
  · intro span vm e h; simp [loopBreakEval, h]
  · intro span vm; rfl
  · intro span vm h; simp [loopContinueEval, h]
  · intro span vm e h; simp [loopContinueEval, h]
  · intro r vm h; unfold funcReturnEval; rw [h]
  · intro r g vm vm1 v hb hg
    unfold funcReturnEval
    rw [hb]
    dsimp only
    rw [hg]
  · intro r g vm vm1 d hb hg
    unfold funcReturnEval
    rw [hb]
    dsimp only
    rw [hg]

/-- Witness for C6: a break evaluated on an empty slot sets the Break
signal with its span. -/
theorem claim_C6_witness :
    (loopBreakEval 4 ⟨none, [], 0⟩).2
      = { (⟨none, [], 0⟩ : Vm) with flow := some (.Break 4) } :=
  claim_C6.2.1 4 ⟨none, [], 0⟩ rfl

/-- The scope stack is restored by every successful dispatch, given
length-preserving external collaborators. -/
theorem forDispatch_scopes_ok {join : JoinFn} {f : ForExpr}
    (Hd : ∀ p v vm, ((f.dstr p v vm).2).scopes.length = vm.scopes.length)
    (Hb : ∀ vm : Vm, ((f.bodyEval vm).2).scopes.length = vm.scopes.length)
    {iter : Value} {vm1 vm2 : Vm} {r : Value}
    (h : forDispatch join f iter vm1 = (.ok r, vm2)) :
    vm2.scopes.length = vm1.scopes.length := by
  unfold forDispatch at h
  cases hp : f.pattern <;> rw [hp] at h <;> cases iter <;> dsimp only at h <;>
    first
    | exact iterRun_scopes_ok Hd Hb h
    | simp at h

/-- Claim C7: after the iterable is evaluated, the for loop selects its
iteration source from the pattern shape and the value's runtime type: a
normal pattern over a string iterates the grapheme clusters; any pattern
over a dictionary iterates key/value pairs; any pattern over an array
iterates the elements in order; a normal pattern over any other type fails
with "cannot loop over {type}" at the iterable's span; any other
pattern/value combination fails with "cannot destructure values of {type}"
at the pattern's span. -/
theorem claim_C7 :
    (∀ (join : JoinFn) (f : ForExpr) (vm vm1 : Vm) (s name : String),
      f.iterEval { vm with flow := none } = (.ok (.str s), vm1) →
      f.pattern = .normal name →
      forEval join f vm
        = restoreFlow vm.flow
            (iterRun join f ((f.graphemes s).map Value.str) vm1))
    ∧
    (∀ (join : JoinFn) (f : ForExpr) (vm vm1 : Vm)
        (pairs : List (String × Value)),
      f.iterEval { vm with flow := none } = (.ok (.dict pairs), vm1) →
      forEval join f vm
        = restoreFlow vm.flow (iterRun join f (dictPairs pairs) vm1))
    ∧
    (∀ (join : JoinFn) (f : ForExpr) (vm vm1 : Vm) (elems : List Value),
      f.iterEval { vm with flow := none } = (.ok (.array elems), vm1) →
      forEval join f vm
        = restoreFlow vm.flow (iterRun join f elems vm1))
    ∧
    (∀ (join : JoinFn) (f : ForExpr) (vm vm1 : Vm) (v : Value)
        (name : String),
      f.iterEval { vm with flow := none } = (.ok v, vm1) →
      f.pattern = .normal name →
      (∀ s, v ≠ .str s) → (∀ p, v ≠ .dict p) → (∀ a, v ≠ .array a) →
      forEval join f vm
        = (.error ⟨f.iterSpan, "cannot loop over " ++ v.ty⟩, vm1))
    ∧
    (∀ (join : JoinFn) (f : ForExpr) (vm vm1 : Vm) (v : Value),
      f.iterEval { vm with flow := none } = (.ok v, vm1) →
      (∀ name, f.pattern ≠ .normal name) →
      (∀ p, v ≠ .dict p) → (∀ a, v ≠ .array a) →
      forEval join f vm
        = (.error ⟨f.patternSpan, "cannot destructure values of " ++ v.ty⟩,
            vm1)) := by
  refine ⟨?_, ?_, ?_, ?_, ?_⟩
  · intro join f vm vm1 s name hi hp
    rw [forEval_iter_ok hi, forDispatch_str hp]
  · intro join f vm vm1 pairs hi
    rw [forEval_iter_ok hi, forDispatch_dict]
  · intro join f vm vm1 elems hi
    rw [forEval_iter_ok hi, forDispatch_array]
  · intro join f vm vm1 v name hi hp h1 h2 h3
    rw [forEval_iter_ok hi, forDispatch_loop_error hp h1 h2 h3,
      restoreFlow_error]
  · intro join f vm vm1 v hi hp h2 h3
    rw [forEval_iter_ok hi, forDispatch_destructure_error hp h2 h3,
      restoreFlow_error]

/-- Witness for C7: looping a normal pattern over an integer fails with the
"cannot loop over" diagnostic at the iterable's span. -/
theorem claim_C7_witness :
    forEval joinVal intFor ⟨none, [], 0⟩
      = (.error ⟨6, "cannot loop over integer"⟩, ⟨none, [], 0⟩) :=
  claim_C7.2.2.2.1 joinVal intFor ⟨none, [], 0⟩ ⟨none, [], 0⟩ (.int 7) "x"
    rfl rfl (fun _ h => Value.noConfusion h) (fun _ h => Value.noConfusion h)
    (fun _ h => Value.noConfusion h)

/-- Claim C8 (amended): a for loop that reaches iteration enters exactly one
binding scope before the first item and exits it once after iteration ends
normally or through a break/return signal, so on every evaluation that
returns a value the scope-stack depth is restored (with length-preserving
external collaborators); the scope is not re-entered per item.  When the
loop aborts with an error raised during iteration, however, the evaluator
returns before `exit`, leaving the scope stack one frame deeper than at
entry — so the original claim's "including an abort" fails (see the
counterexample). -/
theorem claim_C8 :
    (∀ (join : JoinFn) (f : ForExpr) (vm vmf : Vm) (r : Value),
      (∀ p v vmx, ((f.dstr p v vmx).2).scopes.length = vmx.scopes.length) →
      (∀ vmx : Vm, ((f.bodyEval vmx).2).scopes.length = vmx.scopes.length) →
      (∀ vmx : Vm, ((f.iterEval vmx).2).scopes.length = vmx.scopes.length) →
      forEval join f vm = (.ok r, vmf) →
      vmf.scopes.length = vm.scopes.length)
    ∧
    (∀ (join : JoinFn) (f : ForExpr) (items : List Value) (vm vmf : Vm)
        (d : Diag),
      (∀ p v vmx, ((f.dstr p v vmx).2).scopes.length = vmx.scopes.length) →
      (∀ vmx : Vm, ((f.bodyEval vmx).2).scopes.length = vmx.scopes.length) →
      iterRun join f items vm = (.error d, vmf) →
      vmf.scopes.length = vm.scopes.length + 1) := by
  constructor
  · intro join f vm vmf r Hd Hb Hi heval
    rcases hi : f.iterEval { vm with flow := none } with ⟨ri, vm1⟩
    have hl1 : vm1.scopes.length = vm.scopes.length := by
      have := Hi { vm with flow := none }; rw [hi] at this; exact this
    cases ri with
    | error d => rw [forEval_iter_error hi] at heval; cases heval
    | ok iter =>
      rw [forEval_iter_ok hi] at heval
      rcases hdp : forDispatch join f iter vm1 with ⟨rd, vm2⟩
      rw [hdp] at heval
      cases rd with
      | error d => cases heval
      | ok v =>
        have hl2 : vm2.scopes.length = vm1.scopes.length :=
          forDispatch_scopes_ok Hd Hb hdp
        cases hsv : vm.flow with
        | none =>
          rw [restoreFlow, hsv] at heval
          simp only [Option.isSome_none, Bool.false_eq_true, if_false]
            at heval
          cases heval
          omega
        | some e =>
          rw [restoreFlow, hsv] at heval
          simp only [Option.isSome_some, if_true] at heval
          cases heval
          simp only []
          omega
  · intro join f items vm vmf d Hd Hb h
    exact iterRun_scopes_error Hd Hb h

/-- Witness for C8: the scripted three-iteration for loop restores the
scope-stack depth on its successful exit. -/
theorem claim_C8_witness :
    ((⟨none, [], 3⟩ : Vm).scopes.length
      = (⟨none, [], 0⟩ : Vm).scopes.length) :=
  claim_C8.1 joinVal (scriptFor fun _ => Value.none) ⟨none, [], 0⟩
    ⟨none, [], 3⟩ Value.none (fun _ _ _ => rfl) (fun _ => rfl) (fun _ => rfl)
    rfl

/-- Counterexample for C8: when the body of the first iteration fails, the
for-loop evaluator returns with the entered scope still on the stack —
depth 1 instead of the entry depth 0 — so the claim's "the scope-stack
depth after the evaluator returns equals its depth at entry, including when
the loop ends early by an abort" is false on the abort path. -/
theorem claim_C8_counterexample :
    forEval joinVal errFor ⟨none, [], 0⟩
      = (.error ⟨8, "body failed"⟩, ⟨none, [[]], 0⟩)
    ∧ ((⟨none, [[]], 0⟩ : Vm).scopes.length
        ≠ (⟨none, [], 0⟩ : Vm).scopes.length) := by
  constructor
  · rfl
  · simp

/-- Claim C9: the is-invariant predicate follows the recursive structural
definition: false on plain and math-mode identifiers; on a field access it
equals invariance of the target alone, independent of the field name; on a
function call it is the conjunction of invariance of the callee and of the
argument list; on every other node kind it holds exactly when all syntactic
children are invariant. -/
theorem claim_C9 :
    (∀ name, is_invariant (.ident name) = false)
    ∧ (∀ name, is_invariant (.mathIdent name) = false)
    ∧ (∀ (receiver : SyntaxNode) (field : String),
      is_invariant (.fieldAccess receiver field) = is_invariant receiver)
    ∧ (∀ (receiver : SyntaxNode) (f1 f2 : String),
      is_invariant (.fieldAccess receiver f1)
        = is_invariant (.fieldAccess receiver f2))
    ∧ (∀ (callee args : SyntaxNode),
      is_invariant (.funcCall callee args)
        = (is_invariant callee && is_invariant args))
    ∧ (∀ n : SyntaxNode,
      (∀ name, n ≠ .ident name) → (∀ name, n ≠ .mathIdent name) →
      (∀ receiver field, n ≠ .fieldAccess receiver field) →
      (∀ callee args, n ≠ .funcCall callee args) →
      is_invariant n = n.children.all is_invariant) := by
  refine ⟨fun name => rfl, fun name => rfl, fun receiver field => rfl,
    fun receiver f1 f2 => rfl, fun callee args => rfl, ?_⟩
  intro n h1 h2 h3 h4
  cases n with
  | ident name => exact absurd rfl (h1 name)
  | mathIdent name => exact absurd rfl (h2 name)
  | fieldAccess receiver field => exact absurd rfl (h3 receiver field)
  | funcCall callee args => exact absurd rfl (h4 callee args)
  | breakNode => rfl
  | continueNode => rfl
  | returnNode body =>
    cases body with
    | none => rfl
    | some bd => simp [is_invariant, SyntaxNode.children]
  | other tag children =>
    simp [is_invariant, SyntaxNode.children, allInvariant_eq_all]

/-- Witness for C9: a block node (an "other" kind) containing a break is
invariant exactly when all its children are. -/
theorem claim_C9_witness :
    is_invariant (.other 0 [SyntaxNode.breakNode])
      = (SyntaxNode.other 0 [SyntaxNode.breakNode]).children.all
          is_invariant :=
  claim_C9.2.2.2.2.2 (.other 0 [SyntaxNode.breakNode])
    (fun _ h => SyntaxNode.noConfusion h)
    (fun _ h => SyntaxNode.noConfusion h)
    (fun _ _ h => SyntaxNode.noConfusion h)
    (fun _ _ h => SyntaxNode.noConfusion h)

/-- Claim C10: the can-diverge predicate holds exactly when the node itself,
or some descendant of it, is a break or return node; a continue node does
not count, so a subtree whose only control-flow nodes are continues is
reported as non-diverging. -/
theorem claim_C10 :
    (∀ n : SyntaxNode,
      can_diverge n = true
        ↔ ∃ m, Descendant m n ∧ m.isBreakOrReturn = true)
    ∧ can_diverge SyntaxNode.continueNode = false
    ∧ can_diverge
        (.other 0 [SyntaxNode.continueNode,
          .other 1 [SyntaxNode.continueNode]]) = false := by
  refine ⟨?_, rfl, rfl⟩
  intro n
  constructor
  · intro h
    exact diverge_has_descendant (sizeOf n) n (Nat.le_refl _) h
  · rintro ⟨m, hd, hm⟩
    exact descendant_diverges hd hm

end Flow
